import Mathlib

/-!
Shallow embedding of the kodi-script-go interpreter core, for checking the
specification's claims against the source.

Embedded components:
* the AST LRU cache (`cache` package, src/unnamed/part_000);
* the lexer with automatic-semicolon-insertion (src/unnamed/part_008) and the
  token model (src/token/token.go);
* the tree-walking interpreter (src/unnamed/part_001) over the AST
  (src/unnamed/part_004).

Modelling conventions:
* KodiScript numbers are Go `float64`; they are modelled as exact
  rationals (`Q`), which agrees with float semantics on all values the
  claims exercise; `%v` rendering of numbers and composites is abstracted.
* Go maps are modelled as association lists with map-like update.
* Go pointers to environments are modelled as addresses into an explicit
  heap of frames; `*Function` / `*NativeFunction` pointer identity is
  modelled by allocation ids drawn from a counter.
* Go's `==` on `interface{}` values is modelled by `goEq`, returning `none`
  where Go raises a run-time panic (comparing uncomparable dynamic types).
* fallible evaluation returns `Except Err`; nontermination is cut off by a
  fuel parameter (`Err.outOfFuel` is not a Go behaviour).
-/

namespace KodiSpec

/-! ## AST LRU cache (src/unnamed/part_000)

The cache stores parsed programs keyed by a 16-hex-character SHA-256 prefix
of the source; the digest function is opaque here, so the operations are
modelled directly on keys (the claims quantify over distinct keys).  The Go
`map[string]*list.Element` plus `container/list` pair is modelled as the
list of map keys (`items`) plus the recency list (`order`, front =
most-recently used), updated exactly where the Go code updates each. -/

/-- Parsed programs are opaque payloads to the cache. -/
abbrev CProg := Nat

/-- Mirror of `cache.ASTCache`: capacity, the key set of the `items` map,
and the recency-ordered list (front = most recent). -/
structure ASTCache where
  capacity : Nat
  items : List String
  order : List (String × CProg)
deriving Repr, DecidableEq

/-- Mirror of `cache.NewASTCache`. -/
def newASTCache (capacity : Nat) : ASTCache :=
  { capacity := capacity, items := [], order := [] }

/-- Find the first recency-list entry with the given key (the unique one,
under the cache invariant). -/
def findEntry (key : String) : List (String × CProg) → Option (String × CProg)
  | [] => none
  | e :: rest => if e.1 = key then some e else findEntry key rest

/-- Remove the first recency-list entry with the given key; together with a
cons this models `list.MoveToFront` / `list.Remove`. -/
def removeEntry (key : String) : List (String × CProg) → List (String × CProg)
  | [] => []
  | e :: rest => if e.1 = key then rest else e :: removeEntry key rest

/-- Remove the first occurrence of a key; models `delete(c.items, k)`. -/
def eraseKey (key : String) : List String → List String
  | [] => []
  | k :: rest => if k = key then rest else k :: eraseKey key rest

/-- Mirror of `ASTCache.Get` after key computation: map lookup decides the
hit, and a hit moves the entry to the front of the recency list. -/
def ASTCache.get (c : ASTCache) (key : String) : Option CProg × ASTCache :=
  if key ∈ c.items then
    match findEntry key c.order with
    | some e => (some e.2, { c with order := e :: removeEntry key c.order })
    | none => (none, c)
  else
    (none, c)

/-- Mirror of `ASTCache.Set` after key computation: an existing key has its
program replaced and its entry promoted; otherwise, when the list is at
capacity the back entry is removed (and its key deleted from the map), and
the new entry is pushed to the front and inserted in the map. -/
def ASTCache.set (c : ASTCache) (key : String) (program : CProg) : ASTCache :=
  if key ∈ c.items then
    { c with order := (key, program) :: removeEntry key c.order }
  else
    let c' :=
      if c.capacity ≤ c.order.length then
        match c.order.getLast? with
        | some oldest =>
            { c with items := eraseKey oldest.1 c.items, order := c.order.dropLast }
        | none => c
      else c
    { c' with items := key :: c'.items, order := (key, program) :: c'.order }

/-- Mirror of `ASTCache.Clear`. -/
def ASTCache.clear (c : ASTCache) : ASTCache :=
  { c with items := [], order := [] }

/-- Mirror of `ASTCache.Len`. -/
def ASTCache.len (c : ASTCache) : Nat :=
  c.order.length

/-- A client-visible cache operation. -/
inductive CacheOp where
  | get (key : String)
  | set (key : String) (program : CProg)
  | clear
deriving Repr, DecidableEq

/-- Run a sequence of cache operations. -/
def runCacheOps : List CacheOp → ASTCache → ASTCache
  | [], c => c
  | .get k :: rest, c => runCacheOps rest (c.get k).2
  | .set k p :: rest, c => runCacheOps rest (c.set k p)
  | .clear :: rest, c => runCacheOps rest c.clear

/-- Insert a list of (key, program) entries in order. -/
def insertAll (entries : List (String × CProg)) (c : ASTCache) : ASTCache :=
  entries.foldl (fun c e => c.set e.1 e.2) c

/-- The cache representation invariant (spec §3 "AST cache" invariants):
capacity ≥ 1, the map keys are unique, the recency-list keys are unique, a
key is in the map exactly when it has an entry in the recency list, and the
size is bounded by the capacity. -/
def CacheInv (c : ASTCache) : Prop :=
  1 ≤ c.capacity ∧ c.items.Nodup ∧ (c.order.map Prod.fst).Nodup ∧
    (∀ k, k ∈ c.items ↔ k ∈ c.order.map Prod.fst) ∧
    c.order.length ≤ c.capacity

/-! ## Token model (src/token/token.go) and lexer (src/unnamed/part_008)

The lexer is byte-oriented in Go; KodiScript sources are ASCII, so bytes are
modelled as `Char` with `Char.ofNat 0` for the Go sentinel byte 0.  The
`NextToken` self-recursion (on swallowed newlines and line comments) and the
scanning loops are given explicit fuel; running out of fuel yields the EOF
token, a case no terminating Go execution reaches. -/

/-- Mirror of the `token.Type` constants. -/
inductive TokType where
  | ILLEGAL | EOF | NEWLINE
  | IDENT | NUMBER | STRING | STRING_TEMPLATE
  | ASSIGN | PLUS | MINUS | ASTERISK | SLASH | PERCENT
  | EQ | NOT_EQ | LT | GT | LT_EQ | GT_EQ
  | AND | OR | NOT
  | SAFE_ACCESS | ELVIS
  | COMMA | SEMICOLON | COLON | LPAREN | RPAREN | LBRACE | RBRACE
  | LBRACKET | RBRACKET | DOT
  | LET | IF | ELSE | TRUE | FALSE | NULL | RETURN | FOR | IN | FN
deriving Repr, DecidableEq

/-- Mirror of `token.Token`. -/
structure Tok where
  ttype : TokType
  literal : String
  line : Nat
  column : Nat
deriving Repr, DecidableEq

/-- Mirror of `token.LookupIdent`. -/
def lookupIdent (ident : String) : TokType :=
  if ident = "let" then .LET
  else if ident = "if" then .IF
  else if ident = "else" then .ELSE
  else if ident = "true" then .TRUE
  else if ident = "false" then .FALSE
  else if ident = "null" then .NULL
  else if ident = "return" then .RETURN
  else if ident = "for" then .FOR
  else if ident = "in" then .IN
  else if ident = "fn" then .FN
  else .IDENT

/-- Mirror of `token.Type.CanEndStatement` (the ASI predicate in the code). -/
def TokType.canEndStatement : TokType → Bool
  | .IDENT | .NUMBER | .STRING | .STRING_TEMPLATE | .TRUE | .FALSE | .NULL
  | .RPAREN | .RBRACE | .RBRACKET => true
  | _ => false

/-- Mirror of `lexer.Lexer`. -/
structure Lex where
  input : List Char
  position : Nat
  readPosition : Nat
  ch : Char
  line : Nat
  column : Nat
  prevToken : Tok
deriving Repr, DecidableEq

/-- The Go byte sentinel 0 used for end of input. -/
def chNul : Char := '\x00'

/-- Mirror of `Lexer.readChar`. -/
def Lex.readChar (l : Lex) : Lex :=
  let c := if l.input.length ≤ l.readPosition then chNul
           else l.input.getD l.readPosition chNul
  { l with ch := c, position := l.readPosition,
           readPosition := l.readPosition + 1, column := l.column + 1 }

/-- Mirror of `Lexer.peekChar`. -/
def Lex.peekChar (l : Lex) : Char :=
  if l.input.length ≤ l.readPosition then chNul
  else l.input.getD l.readPosition chNul

/-- Mirror of `lexer.New`: `prevToken` starts as an ILLEGAL token so that
leading newlines are swallowed. -/
def newLexer (input : List Char) : Lex :=
  Lex.readChar
    { input := input, position := 0, readPosition := 0, ch := chNul,
      line := 1, column := 0, prevToken := ⟨.ILLEGAL, "", 0, 0⟩ }

/-- Mirror of `isLetter`. -/
def isLetterCh (c : Char) : Bool :=
  ('a' ≤ c && c ≤ 'z') || ('A' ≤ c && c ≤ 'Z') || c = '_'

/-- Mirror of `isDigit`. -/
def isDigitCh (c : Char) : Bool :=
  '0' ≤ c && c ≤ '9'

/-- Mirror of `Lexer.skipWhitespace` (spaces, tabs, carriage returns; never
newlines), as a fueled loop. -/
def skipWS : Nat → Lex → Lex
  | 0, l => l
  | fuel + 1, l =>
    if l.ch = ' ' ∨ l.ch = '\t' ∨ l.ch = '\r' then skipWS fuel l.readChar else l

/-- Mirror of `Lexer.skipLineComment`, as a fueled loop. -/
def skipLineComment : Nat → Lex → Lex
  | 0, l => l
  | fuel + 1, l =>
    if l.ch ≠ '\n' ∧ l.ch ≠ chNul then skipLineComment fuel l.readChar else l

/-- Mirror of the loop of `Lexer.readIdentifier`, returning the scanned
characters alongside the advanced lexer. -/
def readIdentAux : Nat → Lex → List Char × Lex
  | 0, l => ([], l)
  | fuel + 1, l =>
    if isLetterCh l.ch || isDigitCh l.ch then
      let (cs, l2) := readIdentAux fuel l.readChar
      (l.ch :: cs, l2)
    else ([], l)

/-- Digit-run loop shared by the two phases of `Lexer.readNumber`. -/
def readDigitsAux : Nat → Lex → List Char × Lex
  | 0, l => ([], l)
  | fuel + 1, l =>
    if isDigitCh l.ch then
      let (cs, l2) := readDigitsAux fuel l.readChar
      (l.ch :: cs, l2)
    else ([], l)

/-- Mirror of `Lexer.readNumber`: a digit run, optionally followed by `.`
and another digit run when the dot is followed by a digit. -/
def readNumberTok (fuel : Nat) (l : Lex) : List Char × Lex :=
  let (cs, l1) := readDigitsAux fuel l
  if l1.ch = '.' ∧ isDigitCh l1.peekChar then
    let (cs2, l2) := readDigitsAux fuel l1.readChar
    (cs ++ '.' :: cs2, l2)
  else (cs, l1)

/-- Mirror of the loop of `Lexer.readString` (escape handling for
newline, tab, quote and backslash; other escaped bytes pass through). -/
def readStringAux : Nat → Lex → List Char × Lex
  | 0, l => ([], l)
  | fuel + 1, l =>
    if l.ch ≠ '"' ∧ l.ch ≠ chNul then
      if l.ch = '\\' then
        let l1 := l.readChar
        let c := if l1.ch = 'n' then '\n'
                 else if l1.ch = 't' then '\t'
                 else if l1.ch = '"' then '"'
                 else if l1.ch = '\\' then '\\'
                 else l1.ch
        let (cs, l2) := readStringAux fuel l1.readChar
        (c :: cs, l2)
      else
        let (cs, l2) := readStringAux fuel l.readChar
        (l.ch :: cs, l2)
    else ([], l)

/-- Mirror of `Lexer.readString` including the skip of the opening quote. -/
def readStringTok (fuel : Nat) (l : Lex) : List Char × Lex :=
  readStringAux fuel l.readChar

/-- One-character token helper, mirror of `Lexer.newToken`. -/
def mkTok (l : Lex) (t : TokType) : Tok :=
  ⟨t, String.mk [l.ch], l.line, l.column⟩

/-- Fuel passed to the scanning loops inside `nextToken`; large enough for
any remaining input. -/
def loopFuel (l : Lex) : Nat :=
  l.input.length + 1

/-- Finish a `nextToken` case that falls through the Go `switch`: advance
one character, record the token as `prevToken`, and return it. -/
def finishTok (l : Lex) (tok : Tok) : Tok × Lex :=
  (tok, { l.readChar with prevToken := tok })

/-- Mirror of `Lexer.NextToken`; the Go `switch l.ch` is a `match` on the
current character.  The outer fuel bounds the self-recursion used for line
comments and swallowed newlines; exhausted fuel returns EOF (unreachable
for terminating Go runs). -/
def nextToken : Nat → Lex → Tok × Lex
  | 0, l => (⟨.EOF, "", l.line, l.column⟩, l)
  | fuel + 1, l0 =>
    let l := skipWS (loopFuel l0) l0
    let line := l.line
    let col := l.column
    match l.ch with
    | '=' =>
      if l.peekChar = '=' then
        let l1 := l.readChar
        finishTok l1 ⟨.EQ, "==", l1.line, l1.column - 1⟩
      else finishTok l (mkTok l .ASSIGN)
    | '+' => finishTok l (mkTok l .PLUS)
    | '-' => finishTok l (mkTok l .MINUS)
    | '*' => finishTok l (mkTok l .ASTERISK)
    | '/' =>
      if l.peekChar = '/' then
        nextToken fuel (skipLineComment (loopFuel l) l)
      else finishTok l (mkTok l .SLASH)
    | '!' =>
      if l.peekChar = '=' then
        let l1 := l.readChar
        finishTok l1 ⟨.NOT_EQ, "!=", l1.line, l1.column - 1⟩
      else finishTok l (mkTok l .NOT)
    | '<' =>
      if l.peekChar = '=' then
        let l1 := l.readChar
        finishTok l1 ⟨.LT_EQ, "<=", l1.line, l1.column - 1⟩
      else finishTok l (mkTok l .LT)
    | '>' =>
      if l.peekChar = '=' then
        let l1 := l.readChar
        finishTok l1 ⟨.GT_EQ, ">=", l1.line, l1.column - 1⟩
      else finishTok l (mkTok l .GT)
    | '&' =>
      if l.peekChar = '&' then
        let l1 := l.readChar
        finishTok l1 ⟨.AND, "&&", l1.line, l1.column - 1⟩
      else finishTok l (mkTok l .ILLEGAL)
    | '|' =>
      if l.peekChar = '|' then
        let l1 := l.readChar
        finishTok l1 ⟨.OR, "||", l1.line, l1.column - 1⟩
      else finishTok l (mkTok l .ILLEGAL)
    | '?' =>
      if l.peekChar = '.' then
        let l1 := l.readChar
        finishTok l1 ⟨.SAFE_ACCESS, "?.", l1.line, l1.column - 1⟩
      else if l.peekChar = ':' then
        let l1 := l.readChar
        finishTok l1 ⟨.ELVIS, "?:", l1.line, l1.column - 1⟩
      else finishTok l (mkTok l .ILLEGAL)
    | ',' => finishTok l (mkTok l .COMMA)
    | ';' => finishTok l (mkTok l .SEMICOLON)
    | '(' => finishTok l (mkTok l .LPAREN)
    | ')' => finishTok l (mkTok l .RPAREN)
    | '{' => finishTok l (mkTok l .LBRACE)
    | '}' => finishTok l (mkTok l .RBRACE)
    | '.' => finishTok l (mkTok l .DOT)
    | '"' =>
      let (cs, l1) := readStringTok (loopFuel l) l
      finishTok l1 ⟨.STRING, String.mk cs, line, col⟩
    | '\n' =>
      if l.prevToken.ttype.canEndStatement then
        let tok : Tok := ⟨.NEWLINE, "\\n", l.line, l.column⟩
        let l1 := { l with line := l.line + 1, column := 0 }
        finishTok l1 tok
      else
        nextToken fuel ({ l with line := l.line + 1, column := 0 }.readChar)
    | '\x00' =>
      finishTok l ⟨.EOF, "", line, col⟩
    | _ =>
      if isLetterCh l.ch then
        let (cs, l1) := readIdentAux (loopFuel l) l
        let lit := String.mk cs
        let tok : Tok := ⟨lookupIdent lit, lit, line, col⟩
        (tok, { l1 with prevToken := tok })
      else if isDigitCh l.ch then
        let (cs, l1) := readNumberTok (loopFuel l) l
        let tok : Tok := ⟨.NUMBER, String.mk cs, line, col⟩
        (tok, { l1 with prevToken := tok })
      else
        finishTok l (mkTok l .ILLEGAL)

/-- The ASI predicate exactly as the specification words it: identifier,
number, string, true, false, null, close-paren, close-brace, close-bracket.
(Refinement reference: to be compared with `TokType.canEndStatement` from
the code, which also admits STRING_TEMPLATE.) -/
def specASIPredicate : TokType → Bool
  | .IDENT | .NUMBER | .STRING | .TRUE | .FALSE | .NULL
  | .RPAREN | .RBRACE | .RBRACKET => true
  | _ => false

/-! ## Script numbers

KodiScript numbers are Go `float64`; they are modelled as exact rationals.
Mathlib's `ℚ` arithmetic does not evaluate inside the kernel, so the
interpreter computes on `Q`, unreduced `num/den` pairs (den positive for
every value the interpreter builds) with the usual cross-multiplication
arithmetic; `Q.toRat` interprets them in `ℚ` for specification lemmas. -/

/-- A rational as an unreduced numerator/denominator pair. -/
structure Q where
  num : Int
  den : Nat
deriving Repr, DecidableEq

instance (n : Nat) : OfNat Q n := ⟨⟨(n : Int), 1⟩⟩

/-- Value of a `Q` in `ℚ` (specification side only). -/
def Q.toRat (q : Q) : ℚ :=
  (q.num : ℚ) / (q.den : ℚ)

def Q.add (a b : Q) : Q :=
  ⟨a.num * b.den + b.num * a.den, a.den * b.den⟩

def Q.sub (a b : Q) : Q :=
  ⟨a.num * b.den - b.num * a.den, a.den * b.den⟩

def Q.mul (a b : Q) : Q :=
  ⟨a.num * b.num, a.den * b.den⟩

/-- Division, with the sign moved to the numerator so the denominator stays
nonnegative; callers guard against a zero divisor as the Go code does. -/
def Q.div (a b : Q) : Q :=
  let n := a.num * (b.den : Int)
  let d := (a.den : Int) * b.num
  if d < 0 then ⟨-n, (-d).toNat⟩ else ⟨n, d.toNat⟩

def Q.neg (a : Q) : Q :=
  ⟨-a.num, a.den⟩

/-- Value equality (`float64 ==`): cross multiplication. -/
def Q.beq (a b : Q) : Bool :=
  a.num * b.den = b.num * a.den

/-- Value order (`float64 <`): cross multiplication (denominators are
nonnegative). -/
def Q.blt (a b : Q) : Bool :=
  a.num * b.den < b.num * a.den

def Q.ble (a b : Q) : Bool :=
  a.num * b.den ≤ b.num * a.den

/-- Test against zero (`rightNum == 0` in Go). -/
def Q.isZero (a : Q) : Bool :=
  a.num = 0

/-- Go's `int(f)` conversion of a `float64`: truncation toward zero
(floor of the magnitude, re-signed), computed with Euclidean division by
the nonnegative denominator. -/
def Q.trunc (q : Q) : Int :=
  if 0 ≤ q.num then q.num / (q.den : Int) else -((-q.num) / (q.den : Int))

/-! ## AST (src/unnamed/part_004)

Blocks (`*ast.BlockStatement`) are modelled by their statement lists;
positional token fields, which only feed diagnostics, are dropped. -/

mutual
inductive Expr where
  | numLit (value : Q)
  | strLit (value : String)
  | strTemplate (parts : List Expr)
  | boolLit (value : Bool)
  | nullLit
  | ident (name : String)
  | funcLit (params : List String) (body : List Stmt)
  | binary (op : String) (left right : Expr)
  | unary (op : String) (right : Expr)
  | arrayLit (elements : List Expr)
  | objLit (pairs : List (String × Expr))
  | indexExpr (left index : Expr)
  | safeAccess (object : Expr) (prop : String)
  | elvis (left dflt : Expr)
  | propAccess (object : Expr) (prop : String)
  | call (function : Expr) (args : List Expr)

inductive Stmt where
  | varDecl (name : String) (value : Expr)
  | assign (name : String) (value : Expr)
  | exprStmt (e : Expr)
  | ifStmt (cond : Expr) (consequence : List Stmt) (alternative : Option (List Stmt))
  | retStmt (value : Option Expr)
  | forStmt (loopVar : String) (iterable : Expr) (body : List Stmt)
end

/-! ## Runtime values and environments (src/unnamed/part_001)

Go's `interpreter.Value` is `interface{}`; scripts and the claims only ever
produce `nil`, `bool`, `float64`, `string`, `[]interface{}`,
`map[string]interface{}`, `*Function` and `*NativeFunction`, which are the
variants below (host-injected `int`/`int64` are integral `num`s).  Pointer
identity of `*Function`/`*NativeFunction` values is modelled as an
allocation id taken from a counter in the interpreter state.  Environments
(`*interpreter.Environment`) are addresses into a heap of frames so that
mutation through captured pointers behaves as in Go. -/

inductive Value where
  | null
  | num (q : Q)
  | str (s : String)
  | bool (b : Bool)
  | arr (elements : List Value)
  | obj (pairs : List (String × Value))
  | fnVal (id : Nat) (params : List String) (body : List Stmt) (env : Nat)
  | nativeVal (id : Nat) (name : String)

/-- Result of a statement: either a plain value or Go's `*ReturnValue`
wrapper signalling an early return. -/
inductive SVal where
  | norm (v : Value)
  | ret (v : Value)

/-- Runtime error kinds; each constructor corresponds to one `fmt.Errorf`
site in src/unnamed/part_001, except: `comparePanic` models the Go run-time
panic raised by `==`/`!=` on two uncomparable dynamic types (slices/maps),
`operationLimitExceeded` is modelled from the spec (see `opTick`),
`nativeMissing` is an unreachable artefact of modelling native functions
by name, and `outOfFuel` marks fuel exhaustion (no Go counterpart). -/
inductive Err where
  | undefinedVariable (name : String)
  | forInRequiresArray
  | cannotAdd
  | cannotArithmetic (op : String)
  | divisionByZero
  | cannotCompare
  | unknownOperator (op : String)
  | unknownArithmeticOperator (op : String)
  | unknownComparisonOperator (op : String)
  | cannotNegate
  | unknownUnaryOperator (op : String)
  | propertyOnNull (name : String)
  | propertyOnNonObject
  | notAFunction
  | indexNotSupported
  | indexMustBeNumber
  | keyMustBeString
  | comparePanic
  | operationLimitExceeded
  | nativeMissing (name : String)
  | outOfFuel
deriving Repr, DecidableEq

/-- Mirror of `interpreter.Environment`: a binding store, an optional outer
environment (by heap address), and the per-environment `print` output
buffer. -/
structure Frame where
  store : List (String × Value)
  outer : Option Nat
  output : List String

/-- Interpreter state: the heap of environment frames (address = index),
the current environment `i.env`, the allocation counter for pointer
identities, and the operation counter/limit modelled from the spec. -/
structure St where
  frames : List Frame
  cur : Nat
  nextId : Nat
  opCount : Nat
  maxOps : Nat

/-- Go map lookup on an association-list store. -/
def lookupStore (name : String) : List (String × Value) → Option Value
  | [] => none
  | (k, v) :: rest => if k = name then some v else lookupStore name rest

/-- Go map update on an association-list store. -/
def storeSet (name : String) (v : Value) : List (String × Value) → List (String × Value)
  | [] => [(name, v)]
  | (k, w) :: rest =>
    if k = name then (name, v) :: rest else (k, w) :: storeSet name v rest

/-- Mirror of `Environment.Get`: look in the current store, else recurse on
the outer environment.  The fuel bounds the chain walk; `envGet` supplies
more fuel than any acyclic chain needs. -/
def envGetAux : Nat → List Frame → Nat → String → Option Value
  | 0, _, _, _ => none
  | fuel + 1, frames, addr, name =>
    match frames[addr]? with
    | none => none
    | some fr =>
      match lookupStore name fr.store with
      | some v => some v
      | none =>
        match fr.outer with
        | some o => envGetAux fuel frames o name
        | none => none

/-- Variable lookup through the environment chain starting at `addr`. -/
def envGet (st : St) (addr : Nat) (name : String) : Option Value :=
  envGetAux (st.frames.length + 1) st.frames addr name

/-- Mirror of `Environment.Set` on the current environment: writes into the
current frame only. -/
def envSetCur (st : St) (name : String) (v : Value) : St :=
  match st.frames[st.cur]? with
  | some fr =>
    { st with frames := st.frames.set st.cur { fr with store := storeSet name v fr.store } }
  | none => st

/-- Mirror of `Environment.AddOutput` on the current environment. -/
def addOutput (st : St) (line : String) : St :=
  match st.frames[st.cur]? with
  | some fr =>
    { st with frames := st.frames.set st.cur { fr with output := fr.output ++ [line] } }
  | none => st

/-- Mirror of `NewEnclosedEnvironment`/`NewEnvironment`: allocate a fresh
frame and return its address. -/
def allocFrame (st : St) (store : List (String × Value)) (outer : Option Nat) :
    Nat × St :=
  (st.frames.length,
   { st with frames := st.frames ++ [{ store := store, outer := outer, output := [] }] })

/-- Mirror of `isTruthy`: null and false are falsy, everything else truthy. -/
def isTruthy : Value → Bool
  | .null => false
  | .bool b => b
  | _ => true

/-- Mirror of `toNumber` (`float64`/`int`/`int64` collapse to `num`). -/
def toNumber : Value → Option Q
  | .num q => some q
  | _ => none

/-- Go's `==` on two `interface{}` values (`evalBinaryExpr` lines 385-388):
`some b` when the comparison is defined (equal dynamic types compare their
content or pointer, differing dynamic types give `false`), and `none` when
Go panics at run time because both operands have the same uncomparable
dynamic type (`[]interface{}` or `map[string]interface{}`). -/
def goEq : Value → Value → Option Bool
  | .null, .null => some true
  | .num a, .num b => some (a.beq b)
  | .str a, .str b => some (decide (a = b))
  | .bool a, .bool b => some (decide (a = b))
  | .arr _, .arr _ => none
  | .obj _, .obj _ => none
  | .fnVal i _ _ _, .fnVal j _ _ _ => some (decide (i = j))
  | .nativeVal i _, .nativeVal j _ => some (decide (i = j))
  | _, _ => some false

/-- Abstraction of Go's shortest-decimal `%v` rendering of a `float64`;
the claims do not depend on number formatting. -/
def ratRepr (q : Q) : String :=
  if q.den = 1 then toString q.num else toString q.num ++ "/" ++ toString q.den

mutual
/-- Abstraction of Go's `fmt.Sprintf` with verb `v`: faithful on nil,
booleans and strings; numbers and composites are rendered recognizably but
not byte-for-byte (`fmt` sorts map keys; pointers print addresses). -/
def govRepr : Value → String
  | .null => "<nil>"
  | .num q => ratRepr q
  | .str s => s
  | .bool true => "true"
  | .bool false => "false"
  | .arr es => "[" ++ govReprList es ++ "]"
  | .obj ps => "map[" ++ govReprPairs ps ++ "]"
  | .fnVal _ _ _ _ => "&fn"
  | .nativeVal _ _ => "&native"

/-- Space-separated element rendering, as Go `%v` prints slices. -/
def govReprList : List Value → String
  | [] => ""
  | [v] => govRepr v
  | v :: rest => govRepr v ++ " " ++ govReprList rest

/-- Key:value rendering, as Go `%v` prints maps. -/
def govReprPairs : List (String × Value) → String
  | [] => ""
  | [(k, v)] => k ++ ":" ++ govRepr v
  | (k, v) :: rest => k ++ ":" ++ govRepr v ++ " " ++ govReprPairs rest
end

/-- Native functions receive evaluated arguments and yield a value or an
error, as `natives.NativeFunc` does; the registry maps names to them.  The
concrete built-in catalog is outside the modelled core, so evaluation is
parameterized by an arbitrary registry. -/
abbrev NativeFn := List Value → Except Err Value

/-- The native-function registry (`natives.Registry`): name-keyed map. -/
abbrev Registry := List (String × NativeFn)

/-- Mirror of `Registry.Get`. -/
def regGet (R : Registry) (name : String) : Option NativeFn :=
  match R with
  | [] => none
  | (k, f) :: rest => if k = name then some f else regGet rest name

/-- Mirror of `evalPlus`. -/
def evalPlus (left right : Value) : Except Err Value :=
  match left with
  | .str s => .ok (.str (s ++ govRepr right))
  | _ =>
    match right with
    | .str s => .ok (.str (govRepr left ++ s))
    | _ =>
      match toNumber left, toNumber right with
      | some a, some b => .ok (.num (a.add b))
      | _, _ => .error .cannotAdd

/-- Mirror of `evalArithmetic`. -/
def evalArithmetic (left right : Value) (op : String) : Except Err Value :=
  match toNumber left, toNumber right with
  | some a, some b =>
    if op = "-" then .ok (.num (a.sub b))
    else if op = "*" then .ok (.num (a.mul b))
    else if op = "/" then
      if b.isZero then .error .divisionByZero else .ok (.num (a.div b))
    else .error (.unknownArithmeticOperator op)
  | _, _ => .error (.cannotArithmetic op)

/-- Mirror of `evalComparison`. -/
def evalComparison (left right : Value) (op : String) : Except Err Value :=
  match toNumber left, toNumber right with
  | some a, some b =>
    if op = "<" then .ok (.bool (a.blt b))
    else if op = ">" then .ok (.bool (b.blt a))
    else if op = "<=" then .ok (.bool (a.ble b))
    else if op = ">=" then .ok (.bool (b.ble a))
    else .error (.unknownComparisonOperator op)
  | _, _ => .error .cannotCompare

/-- Mirror of `evalArrayIndexExpression`: the index must be a number, is
truncated toward zero, out-of-range yields null. -/
def evalArrayIndexExpression (array : List Value) (index : Value) : Except Err Value :=
  match index with
  | .num q =>
    let idx := q.trunc
    if idx < 0 ∨ (array.length : ℤ) ≤ idx then .ok .null
    else .ok (array.getD idx.toNat .null)
  | _ => .error .indexMustBeNumber

/-- Mirror of `evalHashIndexExpression`: the key must be a string, a
missing key yields null. -/
def evalHashIndexExpression (pairs : List (String × Value)) (index : Value) :
    Except Err Value :=
  match index with
  | .str k =>
    match lookupStore k pairs with
    | some v => .ok v
    | none => .ok .null
  | _ => .error .keyMustBeString

/-- Mirror of `evalIndexExpression`. -/
def evalIndexExpression (left index : Value) : Except Err Value :=
  match left with
  | .arr elements => evalArrayIndexExpression elements index
  | .obj pairs => evalHashIndexExpression pairs index
  | _ => .error .indexNotSupported

/-- Mirror of the parameter-binding loop of `applyFunction`: for each
parameter with index below the argument count, `Set` it to the matching
argument; remaining parameters are not bound at all. -/
def paramBindAux (acc : List (String × Value)) :
    List String → List Value → List (String × Value)
  | p :: ps, a :: as => paramBindAux (storeSet p a acc) ps as
  | _, _ => acc

/-- Bindings of the child environment a user-function call runs in. -/
def paramBind (params : List String) (args : List Value) : List (String × Value) :=
  paramBindAux [] params args

/-- Modelled from the spec: the execution-budget tick.  The operation
counter and `SetMaxOperations` are referenced by `kodi.Execute`
(src/kodi.go lines 128-131) but their interpreter-side implementation is
not under src/; per the spec the evaluator increments the counter before
each statement evaluation and each loop iteration and fails with
`operation-limit-exceeded` once a positive maximum is reached, while a
maximum of 0 means unlimited. -/
def opTick (st : St) : Except Err Unit × St :=
  let st' := { st with opCount := st.opCount + 1 }
  if 0 < st'.maxOps ∧ st'.maxOps ≤ st'.opCount then
    (.error .operationLimitExceeded, st')
  else (.ok (), st')

/-! ## The evaluator (src/unnamed/part_001)

Each function mirrors its Go namesake; all take the registry `R` and a fuel
that every recursive call decrements (exhaustion yields `Err.outOfFuel`,
which no terminating Go execution produces).  `opTick` calls are the
spec-modelled execution budget; everything else is translated from the
source. -/

mutual

/-- Mirror of `Interpreter.evalExpression`. -/
def evalExpr (R : Registry) : Nat → St → Expr → Except Err Value × St
  | 0, st, _ => (.error .outOfFuel, st)
  | fuel + 1, st, e =>
    match e with
    | .numLit q => (.ok (.num q), st)
    | .strLit s => (.ok (.str s), st)
    | .strTemplate parts =>
      match evalTemplateParts R fuel st parts with
      | (.error err, st') => (.error err, st')
      | (.ok s, st') => (.ok (.str s), st')
    | .boolLit b => (.ok (.bool b), st)
    | .nullLit => (.ok .null, st)
    | .ident name =>
      match envGet st st.cur name with
      | some v => (.ok v, st)
      | none =>
        match regGet R name with
        | some _ => (.ok (.nativeVal st.nextId name), { st with nextId := st.nextId + 1 })
        | none => (.error (.undefinedVariable name), st)
    | .funcLit params body =>
      (.ok (.fnVal st.nextId params body st.cur), { st with nextId := st.nextId + 1 })
    | .binary op l r => evalBinaryExpr R fuel st op l r
    | .unary op r => evalUnaryExpr R fuel st op r
    | .arrayLit es =>
      match evalExprList R fuel st es with
      | (.error err, st') => (.error err, st')
      | (.ok vs, st') => (.ok (.arr vs), st')
    | .objLit ps =>
      match evalObjPairs R fuel st ps with
      | (.error err, st') => (.error err, st')
      | (.ok pvs, st') => (.ok (.obj pvs), st')
    | .indexExpr l i =>
      match evalExpr R fuel st l with
      | (.error err, st') => (.error err, st')
      | (.ok lv, st1) =>
        match evalExpr R fuel st1 i with
        | (.error err, st') => (.error err, st')
        | (.ok iv, st2) => (evalIndexExpression lv iv, st2)
    | .safeAccess o p => evalSafeAccess R fuel st o p
    | .elvis l d => evalElvisExpr R fuel st l d
    | .propAccess o p => evalPropertyAccess R fuel st o p
    | .call f args => evalCallExpr R fuel st f args
termination_by structural fuel _ _ => fuel

/-- Left-to-right evaluation of an expression list (argument and
array-literal evaluation loops). -/
def evalExprList (R : Registry) : Nat → St → List Expr → Except Err (List Value) × St
  | 0, st, _ => (.error .outOfFuel, st)
  | _ + 1, st, [] => (.ok [], st)
  | fuel + 1, st, e :: rest =>
    match evalExpr R fuel st e with
    | (.error err, st') => (.error err, st')
    | (.ok v, st1) =>
      match evalExprList R fuel st1 rest with
      | (.error err, st') => (.error err, st')
      | (.ok vs, st2) => (.ok (v :: vs), st2)
termination_by structural fuel _ _ => fuel

/-- Object-literal evaluation loop (AST object keys are unique, being a Go
map; pair order stands in for Go's map iteration order). -/
def evalObjPairs (R : Registry) :
    Nat → St → List (String × Expr) → Except Err (List (String × Value)) × St
  | 0, st, _ => (.error .outOfFuel, st)
  | _ + 1, st, [] => (.ok [], st)
  | fuel + 1, st, (k, e) :: rest =>
    match evalExpr R fuel st e with
    | (.error err, st') => (.error err, st')
    | (.ok v, st1) =>
      match evalObjPairs R fuel st1 rest with
      | (.error err, st') => (.error err, st')
      | (.ok pvs, st2) => (.ok ((k, v) :: pvs), st2)
termination_by structural fuel _ _ => fuel

/-- Mirror of `evalStringTemplate`: concatenate part renderings (null
renders as the word `null`). -/
def evalTemplateParts (R : Registry) : Nat → St → List Expr → Except Err String × St
  | 0, st, _ => (.error .outOfFuel, st)
  | _ + 1, st, [] => (.ok "", st)
  | fuel + 1, st, e :: rest =>
    match evalExpr R fuel st e with
    | (.error err, st') => (.error err, st')
    | (.ok v, st1) =>
      let piece := match v with
        | .null => "null"
        | _ => govRepr v
      match evalTemplateParts R fuel st1 rest with
      | (.error err, st') => (.error err, st')
      | (.ok s, st2) => (.ok (piece ++ s), st2)
termination_by structural fuel _ _ => fuel

/-- Mirror of `Interpreter.evalBinaryExpr`: short-circuit `&&`/`||` first,
then strict evaluation of the right operand and operator dispatch. -/
def evalBinaryExpr (R : Registry) : Nat → St → String → Expr → Expr →
    Except Err Value × St
  | 0, st, _, _, _ => (.error .outOfFuel, st)
  | fuel + 1, st, op, left, right =>
    match evalExpr R fuel st left with
    | (.error err, st') => (.error err, st')
    | (.ok l, st1) =>
      if op = "&&" then
        if isTruthy l then
          match evalExpr R fuel st1 right with
          | (.error err, st') => (.error err, st')
          | (.ok r, st2) => (.ok (.bool (isTruthy r)), st2)
        else (.ok (.bool false), st1)
      else if op = "||" then
        if isTruthy l then (.ok (.bool true), st1)
        else
          match evalExpr R fuel st1 right with
          | (.error err, st') => (.error err, st')
          | (.ok r, st2) => (.ok (.bool (isTruthy r)), st2)
      else
        match evalExpr R fuel st1 right with
        | (.error err, st') => (.error err, st')
        | (.ok r, st2) =>
          if op = "+" then (evalPlus l r, st2)
          else if op = "-" then (evalArithmetic l r "-", st2)
          else if op = "*" then (evalArithmetic l r "*", st2)
          else if op = "/" then (evalArithmetic l r "/", st2)
          else if op = "==" then
            match goEq l r with
            | some b => (.ok (.bool b), st2)
            | none => (.error .comparePanic, st2)
          else if op = "!=" then
            match goEq l r with
            | some b => (.ok (.bool !b), st2)
            | none => (.error .comparePanic, st2)
          else if op = "<" then (evalComparison l r "<", st2)
          else if op = ">" then (evalComparison l r ">", st2)
          else if op = "<=" then (evalComparison l r "<=", st2)
          else if op = ">=" then (evalComparison l r ">=", st2)
          else (.error (.unknownOperator op), st2)
termination_by structural fuel _ _ _ => fuel

/-- Mirror of `Interpreter.evalUnaryExpr`. -/
def evalUnaryExpr (R : Registry) : Nat → St → String → Expr → Except Err Value × St
  | 0, st, _, _ => (.error .outOfFuel, st)
  | fuel + 1, st, op, rightE =>
    match evalExpr R fuel st rightE with
    | (.error err, st') => (.error err, st')
    | (.ok r, st1) =>
      if op = "-" then
        match toNumber r with
        | some q => (.ok (.num q.neg), st1)
        | none => (.error .cannotNegate, st1)
      else if op = "!" then (.ok (.bool (!isTruthy r)), st1)
      else (.error (.unknownUnaryOperator op), st1)
termination_by structural fuel _ _ => fuel

/-- Mirror of `Interpreter.evalSafeAccess`: null receiver yields null; a
map receiver looks the property up (missing key is Go's zero value, null);
any other receiver yields null. -/
def evalSafeAccess (R : Registry) : Nat → St → Expr → String → Except Err Value × St
  | 0, st, _, _ => (.error .outOfFuel, st)
  | fuel + 1, st, objExpr, prop =>
    match evalExpr R fuel st objExpr with
    | (.error err, st') => (.error err, st')
    | (.ok object, st1) =>
      match object with
      | .null => (.ok .null, st1)
      | .obj m => (.ok ((lookupStore prop m).getD .null), st1)
      | _ => (.ok .null, st1)
termination_by structural fuel _ _ => fuel

/-- Mirror of `Interpreter.evalElvisExpr`: a non-null left operand is
returned, otherwise the default is evaluated. -/
def evalElvisExpr (R : Registry) : Nat → St → Expr → Expr → Except Err Value × St
  | 0, st, _, _ => (.error .outOfFuel, st)
  | fuel + 1, st, leftE, dfltE =>
    match evalExpr R fuel st leftE with
    | (.error err, st') => (.error err, st')
    | (.ok l, st1) =>
      match l with
      | .null => evalExpr R fuel st1 dfltE
      | _ => (.ok l, st1)
termination_by structural fuel _ _ => fuel

/-- Mirror of `Interpreter.evalPropertyAccess`. -/
def evalPropertyAccess (R : Registry) : Nat → St → Expr → String →
    Except Err Value × St
  | 0, st, _, _ => (.error .outOfFuel, st)
  | fuel + 1, st, objExpr, prop =>
    match evalExpr R fuel st objExpr with
    | (.error err, st') => (.error err, st')
    | (.ok object, st1) =>
      match object with
      | .null => (.error (.propertyOnNull prop), st1)
      | .obj m => (.ok ((lookupStore prop m).getD .null), st1)
      | _ => (.error .propertyOnNonObject, st1)
termination_by structural fuel _ _ => fuel

/-- Mirror of `Interpreter.evalCallExpr`: `print` as a callee identifier is
special-cased before any lookup; otherwise the callee and arguments are
evaluated and applied. -/
def evalCallExpr (R : Registry) : Nat → St → Expr → List Expr →
    Except Err Value × St
  | 0, st, _, _ => (.error .outOfFuel, st)
  | fuel + 1, st, fnExpr, argExprs =>
    match fnExpr with
    | .ident n =>
      if n = "print" then
        match evalExprList R fuel st argExprs with
        | (.error err, st') => (.error err, st')
        | (.ok vs, st1) => (.ok .null, vs.foldl (fun s v => addOutput s (govRepr v)) st1)
      else evalCallGeneric R fuel st fnExpr argExprs
    | _ => evalCallGeneric R fuel st fnExpr argExprs
termination_by structural fuel _ _ => fuel

/-- The non-`print` path of `evalCallExpr`. -/
def evalCallGeneric (R : Registry) : Nat → St → Expr → List Expr →
    Except Err Value × St
  | 0, st, _, _ => (.error .outOfFuel, st)
  | fuel + 1, st, fnExpr, argExprs =>
    match evalExpr R fuel st fnExpr with
    | (.error err, st') => (.error err, st')
    | (.ok fn, st1) =>
      match evalExprList R fuel st1 argExprs with
      | (.error err, st') => (.error err, st')
      | (.ok args, st2) => applyFunction R fuel st2 fn args
termination_by structural fuel _ _ => fuel

/-- Mirror of `Interpreter.applyFunction` (src/unnamed/part_001 lines
565-584): a user function runs its body in a fresh environment enclosed by
the function's captured environment, with parameters bound by
`paramBind`; the current environment is saved and restored around the
call; a return wrapper is unwrapped.  A native function is applied to the
argument list directly. -/
def applyFunction (R : Registry) : Nat → St → Value → List Value →
    Except Err Value × St
  | 0, st, _, _ => (.error .outOfFuel, st)
  | fuel + 1, st, fn, args =>
    match fn with
    | .fnVal _ params body envAddr =>
      let (addr, st1) := allocFrame st (paramBind params args) (some envAddr)
      let saved := st1.cur
      let st2 := { st1 with cur := addr }
      match evalBlock R fuel st2 body with
      | (.error err, st3) => (.error err, { st3 with cur := saved })
      | (.ok sv, st3) =>
        let st4 := { st3 with cur := saved }
        match sv with
        | .ret v => (.ok v, st4)
        | .norm v => (.ok v, st4)
    | .nativeVal _ name =>
      match regGet R name with
      | some f => (f args, st)
      | none => (.error (.nativeMissing name), st)
    | _ => (.error .notAFunction, st)
termination_by structural fuel _ _ => fuel

/-- Mirror of `Interpreter.evalStatement`, preceded by the spec-modelled
execution-budget tick. -/
def evalStmt (R : Registry) : Nat → St → Stmt → Except Err SVal × St
  | 0, st, _ => (.error .outOfFuel, st)
  | fuel + 1, st, s =>
    match opTick st with
    | (.error err, st0) => (.error err, st0)
    | (.ok _, st0) =>
      match s with
      | .varDecl name value =>
        match evalExpr R fuel st0 value with
        | (.error err, st') => (.error err, st')
        | (.ok v, st1) => (.ok (.norm v), envSetCur st1 name v)
      | .assign name value =>
        match evalExpr R fuel st0 value with
        | (.error err, st') => (.error err, st')
        | (.ok v, st1) => (.ok (.norm v), envSetCur st1 name v)
      | .exprStmt e =>
        match evalExpr R fuel st0 e with
        | (.error err, st') => (.error err, st')
        | (.ok v, st1) => (.ok (.norm v), st1)
      | .ifStmt c consequence alternative => evalIfStmt R fuel st0 c consequence alternative
      | .retStmt none => (.ok (.ret .null), st0)
      | .retStmt (some e) =>
        match evalExpr R fuel st0 e with
        | (.error err, st') => (.error err, st')
        | (.ok v, st1) => (.ok (.ret v), st1)
      | .forStmt loopVar iterable body =>
        match evalExpr R fuel st0 iterable with
        | (.error err, st') => (.error err, st')
        | (.ok iv, st1) =>
          match iv with
          | .arr items => evalForLoop R fuel st1 loopVar items body .null
          | _ => (.error .forInRequiresArray, st1)
termination_by structural fuel _ _ => fuel

/-- Mirror of `Interpreter.evalIfStatement`. -/
def evalIfStmt (R : Registry) :
    Nat → St → Expr → List Stmt → Option (List Stmt) → Except Err SVal × St
  | 0, st, _, _, _ => (.error .outOfFuel, st)
  | fuel + 1, st, cond, consequence, alternative =>
    match evalExpr R fuel st cond with
    | (.error err, st') => (.error err, st')
    | (.ok c, st1) =>
      if isTruthy c then evalBlock R fuel st1 consequence
      else
        match alternative with
        | some alt => evalBlock R fuel st1 alt
        | none => (.ok (.norm .null), st1)
termination_by structural fuel _ _ _ => fuel

/-- Mirror of the loop of `Interpreter.evalForStatement`: bind the loop
variable in the current environment and run the body; a return wrapper
propagates; the accumulator is the last body value.  Each iteration starts
with the spec-modelled budget tick. -/
def evalForLoop (R : Registry) :
    Nat → St → String → List Value → List Stmt → Value → Except Err SVal × St
  | 0, st, _, _, _, _ => (.error .outOfFuel, st)
  | _ + 1, st, _, [], _, acc => (.ok (.norm acc), st)
  | fuel + 1, st, loopVar, item :: rest, body, _ =>
    match opTick st with
    | (.error err, st0) => (.error err, st0)
    | (.ok _, st0) =>
      let st1 := envSetCur st0 loopVar item
      match evalBlock R fuel st1 body with
      | (.error err, st') => (.error err, st')
      | (.ok (.ret v), st2) => (.ok (.ret v), st2)
      | (.ok (.norm v), st2) => evalForLoop R fuel st2 loopVar rest body v
termination_by structural fuel _ _ _ _ _ => fuel

/-- Mirror of `Interpreter.evalBlockStatement` via `evalBlockAux`. -/
def evalBlock (R : Registry) : Nat → St → List Stmt → Except Err SVal × St
  | 0, st, _ => (.error .outOfFuel, st)
  | fuel + 1, st, stmts => evalBlockAux R fuel st stmts .null
termination_by structural fuel _ _ => fuel

/-- Statement loop of `evalBlockStatement`: a return wrapper propagates
immediately, otherwise the accumulator tracks the last value. -/
def evalBlockAux (R : Registry) : Nat → St → List Stmt → Value → Except Err SVal × St
  | 0, st, _, _ => (.error .outOfFuel, st)
  | _ + 1, st, [], acc => (.ok (.norm acc), st)
  | fuel + 1, st, s :: rest, _ =>
    match evalStmt R fuel st s with
    | (.error err, st') => (.error err, st')
    | (.ok (.ret v), st') => (.ok (.ret v), st')
    | (.ok (.norm v), st') => evalBlockAux R fuel st' rest v
termination_by structural fuel _ _ _ => fuel

end

/-- Mirror of `Interpreter.Eval`: run top-level statements in order,
unwrapping a return wrapper (which stops execution); the result is the last
statement's value. -/
def evalProgram (R : Registry) (fuel : Nat) : St → List Stmt → Value →
    Except Err Value × St
  | st, [], acc => (.ok acc, st)
  | st, s :: rest, _ =>
    match evalStmt R fuel st s with
    | (.error err, st') => (.error err, st')
    | (.ok (.ret v), st') => (.ok v, st')
    | (.ok (.norm v), st') => evalProgram R fuel st' rest v

/-- Initial interpreter state: one root environment holding the injected
variables (`NewWithEnv`), with the spec-modelled operation limit. -/
def initSt (vars : List (String × Value)) (maxOps : Nat) : St :=
  { frames := [{ store := vars.foldl (fun s kv => storeSet kv.1 kv.2 s) [],
                 outer := none, output := [] }],
    cur := 0, nextId := 0, opCount := 0, maxOps := maxOps }

/-- Run a whole program from a fresh interpreter, as `kodi.Run` does after
parsing (`result Value` starts as Go nil). -/
def interpRun (R : Registry) (fuel : Nat) (vars : List (String × Value))
    (maxOps : Nat) (prog : List Stmt) : Except Err Value × St :=
  evalProgram R fuel (initSt vars maxOps) prog .null

/-! ## Concrete inputs used by witnesses and counterexamples -/

/-- The dynamic-type tag of a value (Go: the dynamic type of the
`interface{}`). -/
def vkind : Value → Nat
  | .null => 0
  | .num _ => 1
  | .str _ => 2
  | .bool _ => 3
  | .arr _ => 4
  | .obj _ => 5
  | .fnVal _ _ _ _ => 6
  | .nativeVal _ _ => 7

/-- The script of spec scenario 7: `let sum = 0` / `for (i in arr) { sum =
sum + i }` / `sum`. -/
def progSumArr : List Stmt :=
  [.varDecl "sum" (.numLit 0),
   .forStmt "i" (.ident "arr") [.assign "sum" (.binary "+" (.ident "sum") (.ident "i"))],
   .exprStmt (.ident "sum")]

/-- Host variables `{ arr: [1,2,3,4,5,6,7,8,9,10] }`. -/
def varsArrTen : List (String × Value) :=
  [("arr", .arr [.num 1, .num 2, .num 3, .num 4, .num 5,
                 .num 6, .num 7, .num 8, .num 9, .num 10])]

/-- Host variables `{ arr: [1,2,3] }`. -/
def varsArrThree : List (String × Value) :=
  [("arr", .arr [.num 1, .num 2, .num 3])]

/-! # Theorems

Helper lemmas first, then one theorem per claim (with witnesses and
counterexamples as required). -/

/-! ## Store and parameter-binding lemmas -/

theorem lookupStore_storeSet (n k : String) (v : Value) (s : List (String × Value)) :
    lookupStore n (storeSet k v s) = if k = n then some v else lookupStore n s := by
  induction s with
  | nil => by_cases h : k = n <;> simp [storeSet, lookupStore, h]
  | cons hd tl ih =>
    obtain ⟨k', v'⟩ := hd
    by_cases hk : k' = k
    · subst hk
      by_cases h : k' = n <;> simp [storeSet, lookupStore, h]
    · by_cases h : k' = n
      · subst h
        have hkn : ¬k = k' := fun hh => hk hh.symm
        simp [storeSet, lookupStore, hk, hkn]
      · simp [storeSet, lookupStore, hk, h, ih]

theorem paramBindAux_not_mem (ps : List String) :
    ∀ (as : List Value) (acc : List (String × Value)) (n : String),
      n ∉ ps.take as.length →
      lookupStore n (paramBindAux acc ps as) = lookupStore n acc := by
  induction ps with
  | nil => intro as acc n _; cases as <;> simp [paramBindAux]
  | cons p ps ih =>
    intro as acc n hn
    cases as with
    | nil => simp [paramBindAux]
    | cons a as =>
      simp only [List.length_cons, List.take_succ_cons, List.mem_cons, not_or] at hn
      simp only [paramBindAux]
      rw [ih as _ n hn.2, lookupStore_storeSet, if_neg (fun h => hn.1 h.symm)]

theorem paramBindAux_get (ps : List String) :
    ∀ (as : List Value) (acc : List (String × Value)) (j : Nat)
      (hnd : ps.Nodup) (hj : j < ps.length) (hja : j < as.length),
      lookupStore (ps.get ⟨j, hj⟩) (paramBindAux acc ps as) =
        some (as.get ⟨j, hja⟩) := by
  induction ps with
  | nil => intro as acc j _ hj _; exact absurd hj (by simp)
  | cons p ps ih =>
    intro as acc j hnd hj hja
    cases as with
    | nil => exact absurd hja (by simp)
    | cons a as =>
      cases j with
      | zero =>
        simp only [List.get, paramBindAux]
        have hp : p ∉ ps.take as.length :=
          fun h => (List.nodup_cons.mp hnd).1 (List.take_subset _ _ h)
        rw [paramBindAux_not_mem ps as _ p hp, lookupStore_storeSet, if_pos rfl]
      | succ j =>
        simp only [List.get, paramBindAux]
        exact ih as _ j (List.nodup_cons.mp hnd).2 (Nat.lt_of_succ_lt_succ hj)
          (Nat.lt_of_succ_lt_succ hja)

theorem paramBind_unbound (ps : List String) (as : List Value) (j : Nat)
    (hnd : ps.Nodup) (hj : j < ps.length) (hja : as.length ≤ j) :
    lookupStore (ps.get ⟨j, hj⟩) (paramBind ps as) = none := by
  have hmem : ps.get ⟨j, hj⟩ ∉ ps.take as.length := by
    intro hmem
    obtain ⟨i, hi, heq⟩ := List.getElem_of_mem hmem
    have hi' : i < as.length ∧ i < ps.length := by
      have := hi
      rw [List.length_take] at this
      omega
    rw [List.getElem_take] at heq
    have hij : (⟨i, hi'.2⟩ : Fin ps.length) = ⟨j, hj⟩ :=
      (List.Nodup.get_inj_iff hnd).mp (by simpa [List.get] using heq)
    have : i = j := congrArg Fin.val hij
    omega
  rw [paramBind, paramBindAux_not_mem ps as [] _ hmem]
  rfl

theorem paramBindAux_take (ps : List String) :
    ∀ (as : List Value) (acc : List (String × Value)),
      paramBindAux acc ps as = paramBindAux acc ps (as.take ps.length) := by
  induction ps with
  | nil => intro as acc; cases as <;> simp [paramBindAux]
  | cons p ps ih =>
    intro as acc
    cases as with
    | nil => simp [paramBindAux]
    | cons a as => simpa [paramBindAux] using ih as (storeSet p a acc)

/-! ## Claim C10: identifier lookup order -/

/-- C10: evaluating an identifier consults the environment chain first and
the native registry only on a failed environment lookup, so an environment
binding shadows a native function of the same name; a name found in neither
yields an undefined-variable error. -/
theorem ident_lookup_order (R : Registry) (fuel : Nat) (st : St) (name : String) :
    (∀ v, envGet st st.cur name = some v →
      evalExpr R (fuel + 1) st (.ident name) = (.ok v, st)) ∧
    (∀ f, envGet st st.cur name = none → regGet R name = some f →
      evalExpr R (fuel + 1) st (.ident name) =
        (.ok (.nativeVal st.nextId name), { st with nextId := st.nextId + 1 })) ∧
    (envGet st st.cur name = none → regGet R name = none →
      evalExpr R (fuel + 1) st (.ident name) = (.error (.undefinedVariable name), st)) :=
  ⟨fun v h => by simp [evalExpr, h],
   fun f h hf => by simp [evalExpr, h, hf],
   fun h hf => by simp [evalExpr, h, hf]⟩

/-- Witness for C10: a host variable `x` bound to 1 shadows a native
function registered under the same name `x`. -/
theorem ident_lookup_order_witness :
    evalExpr [("x", fun _ => Except.ok Value.null)] 1
        (initSt [("x", .num 1)] 0) (.ident "x") =
      (.ok (.num 1), initSt [("x", .num 1)] 0) :=
  (ident_lookup_order [("x", fun _ => Except.ok Value.null)] 0
      (initSt [("x", .num 1)] 0) "x").1 (.num 1) rfl

/-! ## Claim C3: short-circuit logical operators -/

/-- C3: for `l && r`, a falsy left operand yields boolean false without the
right operand being evaluated (the result is independent of `r` and the
state is the post-`l` state); otherwise the result is the boolean
truthiness of `r`.  Dually for `l || r` with a truthy left operand yielding
boolean true.  The result is always a boolean, never the operand itself. -/
theorem logical_shortcircuit (R : Registry) (fuel : Nat) (st : St) (l r : Expr) :
    (∀ v st', evalExpr R fuel st l = (.ok v, st') → isTruthy v = false →
      evalExpr R (fuel + 2) st (.binary "&&" l r) = (.ok (.bool false), st')) ∧
    (∀ v st', evalExpr R fuel st l = (.ok v, st') → isTruthy v = true →
      evalExpr R (fuel + 2) st (.binary "||" l r) = (.ok (.bool true), st')) ∧
    (∀ v st' w st'', evalExpr R fuel st l = (.ok v, st') → isTruthy v = true →
      evalExpr R fuel st' r = (.ok w, st'') →
      evalExpr R (fuel + 2) st (.binary "&&" l r) = (.ok (.bool (isTruthy w)), st'')) ∧
    (∀ v st' w st'', evalExpr R fuel st l = (.ok v, st') → isTruthy v = false →
      evalExpr R fuel st' r = (.ok w, st'') →
      evalExpr R (fuel + 2) st (.binary "||" l r) = (.ok (.bool (isTruthy w)), st'')) :=
  ⟨fun v st' hl hv => by simp [evalExpr, evalBinaryExpr, hl, hv],
   fun v st' hl hv => by simp [evalExpr, evalBinaryExpr, hl, hv],
   fun v st' w st'' hl hv hr => by simp [evalExpr, evalBinaryExpr, hl, hv, hr],
   fun v st' w st'' hl hv hr => by simp [evalExpr, evalBinaryExpr, hl, hv, hr]⟩

/-- Witness for C3: `false && (1/0)` yields boolean false with no
division-by-zero error — the right operand is demonstrably not evaluated. -/
theorem logical_shortcircuit_witness :
    evalExpr [] 3 (initSt [] 0)
        (.binary "&&" (.boolLit false) (.binary "/" (.numLit 1) (.numLit 0))) =
      (.ok (.bool false), initSt [] 0) :=
  (logical_shortcircuit [] 1 (initSt [] 0) (.boolLit false)
      (.binary "/" (.numLit 1) (.numLit 0))).1 (.bool false) (initSt [] 0) rfl rfl

/-! ## Claim C4: safe access -/

/-- C4: `obj ?. prop` yields null without error when `obj` evaluates to
null; when `obj` evaluates to an object, the property is looked up (missing
keys yield null); when `obj` evaluates to any other non-null value the
result is also null — no property access is performed on it; and the chain
`null ?. a ?. b ?. c` evaluates to null with no error raised. -/
theorem safe_access_shortcircuit (R : Registry) (fuel : Nat) (st : St) :
    (∀ obj p st', evalExpr R fuel st obj = (.ok .null, st') →
      evalExpr R (fuel + 2) st (.safeAccess obj p) = (.ok .null, st')) ∧
    (∀ obj p m st', evalExpr R fuel st obj = (.ok (.obj m), st') →
      evalExpr R (fuel + 2) st (.safeAccess obj p) =
        (.ok ((lookupStore p m).getD .null), st')) ∧
    (∀ obj p v st', evalExpr R fuel st obj = (.ok v, st') →
      v ≠ .null → (∀ m, v ≠ .obj m) →
      evalExpr R (fuel + 2) st (.safeAccess obj p) = (.ok .null, st')) ∧
    ((evalExpr [] 8 (initSt [] 0)
        (.safeAccess (.safeAccess (.safeAccess .nullLit "a") "b") "c")).1 =
      .ok .null) :=
  ⟨fun obj p st' h => by simp [evalExpr, evalSafeAccess, h],
   fun obj p m st' h => by simp [evalExpr, evalSafeAccess, h],
   fun obj p v st' h hn hm => by
     cases v with
     | null => exact absurd rfl hn
     | obj m => exact absurd rfl (hm m)
     | num q => simp [evalExpr, evalSafeAccess, h]
     | str s => simp [evalExpr, evalSafeAccess, h]
     | bool b => simp [evalExpr, evalSafeAccess, h]
     | arr xs => simp [evalExpr, evalSafeAccess, h]
     | fnVal i ps b e => simp [evalExpr, evalSafeAccess, h]
     | nativeVal i n => simp [evalExpr, evalSafeAccess, h],
   rfl⟩

/-- Witness for C4: the null case applied at `null ?. a`, and the non-object
case applied at `5 ?. a`. -/
theorem safe_access_shortcircuit_witness :
    evalExpr [] 3 (initSt [] 0) (.safeAccess .nullLit "a") = (.ok .null, initSt [] 0) ∧
    evalExpr [] 3 (initSt [] 0) (.safeAccess (.numLit 5) "a") = (.ok .null, initSt [] 0) :=
  ⟨(safe_access_shortcircuit [] 1 (initSt [] 0)).1 .nullLit "a" (initSt [] 0) rfl,
   (safe_access_shortcircuit [] 1 (initSt [] 0)).2.2.1 (.numLit 5) "a" (.num 5)
     (initSt [] 0) rfl (by simp) (fun m => by simp)⟩

/-- Counterexample to the claim's "otherwise property access is performed":
on a non-null, non-object receiver, safe access yields null while plain
property access on the very same receiver raises an error — `5 ?. a` is
null, but `5 . a` fails with "cannot access property on" the receiver's
type, so safe access does not perform property access there. -/
theorem safe_access_deviates_from_property_access :
    evalExpr [] 3 (initSt [] 0) (.safeAccess (.numLit 5) "a") =
      (.ok .null, initSt [] 0) ∧
    evalExpr [] 3 (initSt [] 0) (.propAccess (.numLit 5) "a") =
      (.error .propertyOnNonObject, initSt [] 0) :=
  ⟨rfl, rfl⟩

/-! ## Number lemmas -/

/-- `Q.trunc` is truncation toward zero: the floor for nonnegative values
and the ceiling for negative ones. -/
theorem Q.trunc_toward_zero (q : Q) (h : q.den ≠ 0) :
    q.trunc = if 0 ≤ q.toRat then ⌊q.toRat⌋ else ⌈q.toRat⌉ := by
  have hd : (0 : ℚ) < (q.den : ℚ) := by exact_mod_cast Nat.pos_of_ne_zero h
  by_cases hn : 0 ≤ q.num
  · have hq : 0 ≤ q.toRat := div_nonneg (by exact_mod_cast hn) (le_of_lt hd)
    rw [Q.trunc, if_pos hn, Q.toRat, if_pos (by rwa [Q.toRat] at hq),
      Rat.floor_intCast_div_natCast]
  · push_neg at hn
    have hq : q.toRat < 0 := div_neg_of_neg_of_pos (by exact_mod_cast hn) hd
    rw [Q.trunc, if_neg (not_le.mpr hn), if_neg (not_le.mpr hq), Q.toRat]
    have hsplit : (q.num : ℚ) / (q.den : ℚ) = -(((-q.num : ℤ) : ℚ) / (q.den : ℚ)) := by
      push_cast
      ring
    rw [hsplit, Int.ceil_neg, Rat.floor_intCast_div_natCast]

/-- `Q.beq` decides genuine rational equality. -/
theorem Q.beq_true_iff (a b : Q) (ha : a.den ≠ 0) (hb : b.den ≠ 0) :
    a.beq b = true ↔ a.toRat = b.toRat := by
  have hda : ((a.den : ℚ)) ≠ 0 := by exact_mod_cast ha
  have hdb : ((b.den : ℚ)) ≠ 0 := by exact_mod_cast hb
  rw [Q.beq, decide_eq_true_iff, Q.toRat, Q.toRat, div_eq_div_iff hda hdb]
  constructor <;> intro h
  · exact_mod_cast h
  · exact_mod_cast h

/-! ## Claim C6: indexing -/

/-- C6: array indexing truncates a numeric index toward zero, yields null
(no error) out of range and the element in range, and rejects non-numeric
indices; object indexing requires a string key (error otherwise) and a
missing key yields null; and `evalExpr` dispatches `l[i]` to these
functions once both sub-expressions evaluate. -/
theorem index_semantics (R : Registry) :
    (∀ (xs : List Value) (q : Q), (q.trunc < 0 ∨ (xs.length : ℤ) ≤ q.trunc) →
      evalArrayIndexExpression xs (.num q) = .ok .null) ∧
    (∀ (xs : List Value) (q : Q), 0 ≤ q.trunc → q.trunc < (xs.length : ℤ) →
      evalArrayIndexExpression xs (.num q) = .ok (xs.getD q.trunc.toNat .null)) ∧
    (∀ q : Q, q.den ≠ 0 →
      q.trunc = if 0 ≤ q.toRat then ⌊q.toRat⌋ else ⌈q.toRat⌉) ∧
    (∀ (xs : List Value) (v : Value), toNumber v = none →
      evalArrayIndexExpression xs v = .error .indexMustBeNumber) ∧
    (∀ (ps : List (String × Value)) (k : String),
      evalHashIndexExpression ps (.str k) = .ok ((lookupStore k ps).getD .null)) ∧
    (∀ (ps : List (String × Value)) (v : Value), (∀ s, v ≠ .str s) →
      evalHashIndexExpression ps v = .error .keyMustBeString) ∧
    (∀ fuel st l i xs v st1 st2, evalExpr R fuel st l = (.ok (.arr xs), st1) →
      evalExpr R fuel st1 i = (.ok v, st2) →
      evalExpr R (fuel + 1) st (.indexExpr l i) = (evalArrayIndexExpression xs v, st2)) ∧
    (∀ fuel st l i ps v st1 st2, evalExpr R fuel st l = (.ok (.obj ps), st1) →
      evalExpr R fuel st1 i = (.ok v, st2) →
      evalExpr R (fuel + 1) st (.indexExpr l i) = (evalHashIndexExpression ps v, st2)) := by
  refine ⟨fun xs q h => ?_, fun xs q h0 hl => ?_, fun q h => Q.trunc_toward_zero q h,
    fun xs v h => ?_, fun ps k => ?_, fun ps v h => ?_,
    fun fuel st l i xs v st1 st2 hl hi => ?_,
    fun fuel st l i ps v st1 st2 hl hi => ?_⟩
  · simp only [evalArrayIndexExpression]
    rw [if_pos h]
  · simp only [evalArrayIndexExpression]
    rw [if_neg (by omega)]
  · cases v <;> simp_all [toNumber, evalArrayIndexExpression]
  · cases hk : lookupStore k ps <;> simp [evalHashIndexExpression, hk]
  · cases v <;> simp_all [evalHashIndexExpression]
  · simp [evalExpr, hl, hi, evalIndexExpression]
  · simp [evalExpr, hl, hi, evalIndexExpression]

/-- Witness for C6: `[10,20][1.5]` is 20 (truncation), `[10,20][5]` and
`[10,20][-1]` are null, `[10,20]["k"]` errors, and on objects a present key
is found, a missing key yields null, and a numeric key errors. -/
theorem index_semantics_witness :
    evalArrayIndexExpression [.num 10, .num 20] (.num ⟨3, 2⟩) = .ok (.num 20) ∧
    evalArrayIndexExpression [.num 10, .num 20] (.num 5) = .ok .null ∧
    evalArrayIndexExpression [.num 10, .num 20] (.num ⟨-1, 1⟩) = .ok .null ∧
    evalArrayIndexExpression [.num 10, .num 20] (.str "k") = .error .indexMustBeNumber ∧
    evalHashIndexExpression [("a", .num 1)] (.str "a") = .ok (.num 1) ∧
    evalHashIndexExpression [("a", .num 1)] (.str "b") = .ok .null ∧
    evalHashIndexExpression [("a", .num 1)] (.num 0) = .error .keyMustBeString :=
  ⟨(index_semantics []).2.1 [.num 10, .num 20] ⟨3, 2⟩ (by decide) (by decide),
   (index_semantics []).1 [.num 10, .num 20] 5 (by right; decide),
   (index_semantics []).1 [.num 10, .num 20] ⟨-1, 1⟩ (by left; decide),
   (index_semantics []).2.2.2.1 [.num 10, .num 20] (.str "k") rfl,
   by rw [(index_semantics []).2.2.2.2.1 [("a", .num 1)] "a"]; rfl,
   by rw [(index_semantics []).2.2.2.2.1 [("a", .num 1)] "b"]; rfl,
   (index_semantics []).2.2.2.2.2.1 [("a", .num 1)] (.num 0) (fun s => by simp)⟩

/-! ## Claim C2: equality -/

/-- C2 (amended): `==` on primitives of the same kind compares content
(null equals null), every cross-kind comparison is false, and `!=` is the
negation of `==`; but when both operands are arrays or both are objects the
comparison does not return a boolean at all — it raises a Go run-time
panic (`comparePanic`) — and those are exactly the failing cases. -/
theorem equality_semantics (R : Registry) :
    (goEq .null .null = some true) ∧
    (∀ a b : Q, a.den ≠ 0 → b.den ≠ 0 →
      (goEq (.num a) (.num b) = some true ↔ a.toRat = b.toRat)) ∧
    (∀ s t : String, goEq (.str s) (.str t) = some (decide (s = t))) ∧
    (∀ x y : Bool, goEq (.bool x) (.bool y) = some (decide (x = y))) ∧
    (∀ v w, vkind v ≠ vkind w → goEq v w = some false) ∧
    (∀ v w, goEq v w = none ↔
      ((∃ xs ys, v = .arr xs ∧ w = .arr ys) ∨ (∃ ps qs, v = .obj ps ∧ w = .obj qs))) ∧
    (∀ fuel st l r v w st1 st2, evalExpr R fuel st l = (.ok v, st1) →
      evalExpr R fuel st1 r = (.ok w, st2) →
      evalExpr R (fuel + 2) st (.binary "==" l r) =
        (match goEq v w with
         | some b => (.ok (.bool b), st2)
         | none => (.error .comparePanic, st2))) ∧
    (∀ fuel st l r b st2,
      evalExpr R (fuel + 2) st (.binary "==" l r) = (.ok (.bool b), st2) →
      evalExpr R (fuel + 2) st (.binary "!=" l r) = (.ok (.bool !b), st2)) := by
  refine ⟨rfl, fun a b ha hb => ?_, fun s t => rfl, fun x y => rfl,
    fun v w h => ?_, fun v w => ?_,
    fun fuel st l r v w st1 st2 hl hr => ?_, fun fuel st l r b st2 h => ?_⟩
  · rw [show goEq (.num a) (.num b) = some (a.beq b) from rfl]
    rw [show (some (a.beq b) = some true) = (a.beq b = true) from by simp]
    exact Q.beq_true_iff a b ha hb
  · cases v <;> cases w <;> first | rfl | exact absurd rfl h
  · cases v <;> cases w <;> simp [goEq]
  · simp [evalExpr, evalBinaryExpr, hl, hr]
  · have h' : evalBinaryExpr R (fuel + 1) st "==" l r = (.ok (.bool b), st2) := by
      simpa [evalExpr] using h
    rcases hL : evalExpr R fuel st l with ⟨eL | vL, st1⟩
    · rw [show evalBinaryExpr R (fuel + 1) st "==" l r =
          (.error eL, st1) from by simp [evalBinaryExpr, hL]] at h'
      exact absurd h' (by simp)
    · rcases hR : evalExpr R fuel st1 r with ⟨eR | vR, st2'⟩
      · rw [show evalBinaryExpr R (fuel + 1) st "==" l r =
            (.error eR, st2') from by simp [evalBinaryExpr, hL, hR]] at h'
        exact absurd h' (by simp)
      · cases hg : goEq vL vR with
        | none =>
          rw [show evalBinaryExpr R (fuel + 1) st "==" l r =
              (.error .comparePanic, st2') from by simp [evalBinaryExpr, hL, hR, hg]] at h'
          exact absurd h' (by simp)
        | some b' =>
          rw [show evalBinaryExpr R (fuel + 1) st "==" l r =
              (.ok (.bool b'), st2') from by simp [evalBinaryExpr, hL, hR, hg]] at h'
          have hb : b' = b := by
            have := congrArg Prod.fst h'
            simpa using this
          have hst : st2' = st2 := by
            have := congrArg Prod.snd h'
            simpa using this
          subst hb
          subst hst
          simp [evalExpr, evalBinaryExpr, hL, hR, hg]

/-- Witness for C2: cross-kind `1 == "1"` is false; `5 == 5` is true;
`goEq` fails exactly on the array/array pair among a sample. -/
theorem equality_semantics_witness :
    goEq (.num 1) (.str "1") = some false ∧
    (goEq (.num ⟨5, 1⟩) (.num ⟨10, 2⟩) = some true ↔
      Q.toRat ⟨5, 1⟩ = Q.toRat ⟨10, 2⟩) ∧
    (goEq (.arr []) (.arr []) = none ↔
      ((∃ xs ys, Value.arr [] = .arr xs ∧ Value.arr [] = .arr ys) ∨
       (∃ ps qs, Value.arr [] = .obj ps ∧ Value.arr [] = .obj qs))) :=
  ⟨(equality_semantics []).2.2.2.2.1 (.num 1) (.str "1") (by decide),
   (equality_semantics []).2.1 ⟨5, 1⟩ ⟨10, 2⟩ (by decide) (by decide),
   (equality_semantics []).2.2.2.2.2.1 (.arr []) (.arr [])⟩

/-- Counterexample for C2 as stated: `let a = [1]` followed by `a == a`
compares an array with itself — reference-identical operands — yet does not
yield true (nor any boolean): it aborts with the modelled Go run-time
panic, so array comparison is not reference-identity equality and the
comparison can fail. -/
theorem array_self_equality_panics :
    (interpRun [] 12 [] 0
        [.varDecl "a" (.arrayLit [.numLit 1]),
         .exprStmt (.binary "==" (.ident "a") (.ident "a"))]).1 =
      .error .comparePanic := rfl

/-! ## Claim C1: user-function application -/

/-- C1 (amended): a user-function call evaluates the body in a fresh child
environment of the function's captured environment in which the first
min(n, k) parameters are bound to the first min(n, k) argument values;
arguments beyond n are discarded (the call result is unchanged by dropping
them); parameters with no corresponding argument are left unbound in the
child frame (not bound to null — a body reference to one resolves through
the enclosing chain or fails with undefined-variable); and no arity error
exists for any mismatch. -/
theorem apply_function_binding (R : Registry) :
    (∀ (ps : List String) (as : List Value) (j : Nat) (hnd : ps.Nodup)
      (hj : j < ps.length) (hja : j < as.length),
      lookupStore (ps.get ⟨j, hj⟩) (paramBind ps as) = some (as.get ⟨j, hja⟩)) ∧
    (∀ (ps : List String) (as : List Value) (j : Nat) (hnd : ps.Nodup)
      (hj : j < ps.length), as.length ≤ j →
      lookupStore (ps.get ⟨j, hj⟩) (paramBind ps as) = none) ∧
    (∀ fuel st id ps body envA (as : List Value),
      applyFunction R fuel st (.fnVal id ps body envA) as =
        applyFunction R fuel st (.fnVal id ps body envA) (as.take ps.length)) ∧
    (∀ fuel st id ps body envA (as : List Value),
      applyFunction R (fuel + 1) st (.fnVal id ps body envA) as =
        (match evalBlock R fuel
            { st with
              frames := st.frames ++
                [{ store := paramBind ps as, outer := some envA, output := [] }],
              cur := st.frames.length } body with
         | (.error e, st3) => (.error e, { st3 with cur := st.cur })
         | (.ok (.ret v), st3) => (.ok v, { st3 with cur := st.cur })
         | (.ok (.norm v), st3) => (.ok v, { st3 with cur := st.cur }))) := by
  refine ⟨fun ps as j hnd hj hja => paramBindAux_get ps as [] j hnd hj hja,
    fun ps as j hnd hj hja => paramBind_unbound ps as j hnd hj hja,
    fun fuel st id ps body envA as => ?_,
    fun fuel st id ps body envA as => ?_⟩
  · cases fuel with
    | zero => rfl
    | succ fuel =>
      have hbind : paramBind ps as = paramBind ps (as.take ps.length) :=
        paramBindAux_take ps as []
      simp only [applyFunction, hbind]
  · simp only [applyFunction, allocFrame]
    rcases hb : evalBlock R fuel
        { st with
          frames := st.frames ++
            [{ store := paramBind ps as, outer := some envA, output := [] }],
          cur := st.frames.length } body with ⟨e | sv, st3⟩
    · simp [hb]
    · cases sv <;> simp [hb]

/-- Witness for C1 (amended): with parameters `["x","y"]` and one argument,
`x` is bound to it and `y` is left unbound; a two-parameter function called
with three arguments or with none runs without any arity error. -/
theorem apply_function_binding_witness :
    lookupStore "x" (paramBind ["x", "y"] [.num 1]) = some (.num 1) ∧
    lookupStore "y" (paramBind ["x", "y"] [.num 1]) = none ∧
    (interpRun [] 12 [] 0
        [.varDecl "f" (.funcLit ["x", "y"] [.retStmt (some (.numLit 42))]),
         .exprStmt (.call (.ident "f") [.numLit 1, .numLit 2, .numLit 3])]).1 =
      .ok (.num 42) ∧
    (interpRun [] 12 [] 0
        [.varDecl "f" (.funcLit ["x", "y"] [.retStmt (some (.numLit 42))]),
         .exprStmt (.call (.ident "f") [])]).1 = .ok (.num 42) :=
  ⟨(apply_function_binding []).1 ["x", "y"] [.num 1] 0 (by decide)
      (by decide) (by decide),
   (apply_function_binding []).2.1 ["x", "y"] [.num 1] 1 (by decide)
      (by decide) (by decide),
   rfl, rfl⟩

/-- Counterexample for C1 as stated: a one-parameter function called with
no arguments does not bind the parameter to null — referencing it inside
the body fails with an undefined-variable error instead of yielding null. -/
theorem missing_param_not_bound_to_null :
    (interpRun [] 12 [] 0
        [.varDecl "f" (.funcLit ["x"] [.retStmt (some (.ident "x"))]),
         .exprStmt (.call (.ident "f") [])]).1 =
      .error (.undefinedVariable "x") := rfl

/-! ## Claim C5: operation limit (spec-modelled) -/

set_option maxHeartbeats 1600000 in
/-- C5 (spec-modelled budget, see `opTick`): a zero maximum never trips the
counter (unlimited); with `{arr: [1..10]}` and max-operations 5 the spec's
scenario-7 program fails with operation-limit-exceeded; the same program
over `[1,2,3]` with the limit unset completes normally (value 6). -/
theorem operation_limit :
    (∀ st : St, st.maxOps = 0 →
      opTick st = (.ok (), { st with opCount := st.opCount + 1 })) ∧
    ((interpRun [] 25 varsArrTen 5 progSumArr).1 = .error .operationLimitExceeded) ∧
    ((interpRun [] 18 varsArrThree 0 progSumArr).1 = .ok (.num ⟨6, 1⟩)) :=
  ⟨fun st h => by simp [opTick, h], rfl, rfl⟩

/-- Witness for C5: the unlimited-tick clause applied at the fresh
interpreter state. -/
theorem operation_limit_witness :
    opTick (initSt [] 0) = (.ok (), { initSt [] 0 with opCount := 1 }) :=
  operation_limit.1 (initSt [] 0) rfl

/-! ## Cache list lemmas -/

theorem findEntry_of_mem {key : String} :
    ∀ {l : List (String × CProg)}, key ∈ l.map Prod.fst →
      ∃ e, findEntry key l = some e ∧ e.1 = key ∧ e ∈ l := by
  intro l h
  induction l with
  | nil => simp at h
  | cons hd tl ih =>
    by_cases hk : hd.1 = key
    · exact ⟨hd, by simp [findEntry, hk], hk, List.mem_cons_self hd tl⟩
    · have h' : key ∈ tl.map Prod.fst := by
        rcases List.mem_cons.mp h with h0 | h0
        · exact absurd h0.symm hk
        · exact h0
      obtain ⟨e, he, he1, hem⟩ := ih h'
      exact ⟨e, by simp [findEntry, hk, he], he1, List.mem_cons_of_mem hd hem⟩

theorem findEntry_none {key : String} :
    ∀ {l : List (String × CProg)}, key ∉ l.map Prod.fst → findEntry key l = none := by
  intro l h
  induction l with
  | nil => rfl
  | cons hd tl ih =>
    simp only [List.map_cons, List.mem_cons, not_or] at h
    have hne : ¬hd.1 = key := fun hh => h.1 hh.symm
    simp [findEntry, hne, ih h.2]

theorem removeEntry_sublist (key : String) :
    ∀ l : List (String × CProg), List.Sublist (removeEntry key l) l := by
  intro l
  induction l with
  | nil => simp [removeEntry]
  | cons hd tl ih =>
    by_cases hk : hd.1 = key
    · simpa [removeEntry, hk] using List.sublist_cons_self hd tl
    · simpa [removeEntry, hk] using List.Sublist.cons₂ hd ih

theorem removeEntry_length {key : String} :
    ∀ {l : List (String × CProg)}, key ∈ l.map Prod.fst →
      (removeEntry key l).length + 1 = l.length := by
  intro l h
  induction l with
  | nil => simp at h
  | cons hd tl ih =>
    by_cases hk : hd.1 = key
    · simp [removeEntry, hk]
    · have h' : key ∈ tl.map Prod.fst := by
        rcases List.mem_cons.mp h with h0 | h0
        · exact absurd h0.symm hk
        · exact h0
      simp [removeEntry, hk, ih h']

theorem mem_removeEntry_fst {key : String} :
    ∀ {l : List (String × CProg)}, (l.map Prod.fst).Nodup → ∀ x,
      (x ∈ (removeEntry key l).map Prod.fst ↔ x ∈ l.map Prod.fst ∧ x ≠ key) := by
  intro l h x
  induction l with
  | nil => simp [removeEntry]
  | cons hd tl ih =>
    simp only [List.map_cons, List.nodup_cons] at h
    by_cases hk : hd.1 = key
    · subst hk
      simp only [removeEntry, if_pos rfl, List.map_cons, List.mem_cons]
      constructor
      · intro hx
        exact ⟨Or.inr hx, fun he => h.1 (he ▸ hx)⟩
      · rintro ⟨hx | hx, hne⟩
        · exact absurd hx hne
        · exact hx
    · simp only [removeEntry, if_neg hk, List.map_cons, List.mem_cons, ih h.2]
      constructor
      · rintro (hx | ⟨hx, hne⟩)
        · exact ⟨Or.inl hx, fun he => hk (hx ▸ he)⟩
        · exact ⟨Or.inr hx, hne⟩
      · rintro ⟨hx | hx, hne⟩
        · exact Or.inl hx
        · exact Or.inr ⟨hx, hne⟩

theorem eraseKey_sublist (key : String) :
    ∀ l : List String, List.Sublist (eraseKey key l) l := by
  intro l
  induction l with
  | nil => simp [eraseKey]
  | cons hd tl ih =>
    by_cases hk : hd = key
    · simpa [eraseKey, hk] using List.sublist_cons_self hd tl
    · simpa [eraseKey, hk] using List.Sublist.cons₂ hd ih

theorem eraseKey_append_right {key : String} :
    ∀ {xs : List String}, key ∉ xs → ∀ ys,
      eraseKey key (xs ++ ys) = xs ++ eraseKey key ys := by
  intro xs h ys
  induction xs with
  | nil => simp
  | cons hd tl ih =>
    simp only [List.mem_cons, not_or] at h
    have hne : ¬hd = key := fun hh => h.1 hh.symm
    simp [eraseKey, hne, ih h.2]

theorem mem_eraseKey {key : String} :
    ∀ {l : List String}, l.Nodup → ∀ x,
      (x ∈ eraseKey key l ↔ x ∈ l ∧ x ≠ key) := by
  intro l h x
  induction l with
  | nil => simp [eraseKey]
  | cons hd tl ih =>
    simp only [List.nodup_cons] at h
    by_cases hk : hd = key
    · subst hk
      simp only [eraseKey, if_pos rfl, List.mem_cons]
      constructor
      · intro hx
        exact ⟨Or.inr hx, fun he => h.1 (he ▸ hx)⟩
      · rintro ⟨hx | hx, hne⟩
        · exact absurd hx hne
        · exact hx
    · simp only [eraseKey, if_neg hk, List.mem_cons, ih h.2]
      constructor
      · rintro (hx | ⟨hx, hne⟩)
        · exact ⟨Or.inl hx, fun he => hk (hx ▸ he)⟩
        · exact ⟨Or.inr hx, hne⟩
      · rintro ⟨hx | hx, hne⟩
        · exact Or.inl hx
        · exact Or.inr ⟨hx, hne⟩

/-! ## Cache invariant preservation -/

theorem get_preserves_inv {c : ASTCache} (h : CacheInv c) (key : String) :
    CacheInv ((c.get key).2) ∧ (c.get key).2.capacity = c.capacity := by
  obtain ⟨hcap, hni, hno, hmem, hlen⟩ := h
  by_cases hk : key ∈ c.items
  · have hk' : key ∈ c.order.map Prod.fst := (hmem key).mp hk
    obtain ⟨e, hfe, he1, _⟩ := findEntry_of_mem hk'
    simp only [ASTCache.get, if_pos hk, hfe]
    refine ⟨⟨hcap, hni, ?_, ?_, ?_⟩, by trivial⟩
    · simp only [List.map_cons, List.nodup_cons, he1]
      constructor
      · intro hkin
        exact absurd ((mem_removeEntry_fst hno key).mp hkin).2 (by simp)
      · exact List.Nodup.sublist (List.Sublist.map Prod.fst (removeEntry_sublist key c.order)) hno
    · intro x
      simp only [List.map_cons, List.mem_cons, he1, mem_removeEntry_fst hno x]
      constructor
      · intro hx
        by_cases hxk : x = key
        · exact Or.inl hxk
        · exact Or.inr ⟨(hmem x).mp hx, hxk⟩
      · rintro (hx | ⟨hx, _⟩)
        · exact hx ▸ hk
        · exact (hmem x).mpr hx
    · simp only [List.length_cons]
      rw [removeEntry_length hk']
      exact hlen
  · simp only [ASTCache.get, if_neg hk]
    exact ⟨⟨hcap, hni, hno, hmem, hlen⟩, by trivial⟩

theorem set_preserves_inv {c : ASTCache} (h : CacheInv c) (key : String) (p : CProg) :
    CacheInv (c.set key p) ∧ (c.set key p).capacity = c.capacity := by
  obtain ⟨hcap, hni, hno, hmem, hlen⟩ := h
  by_cases hk : key ∈ c.items
  · have hk' : key ∈ c.order.map Prod.fst := (hmem key).mp hk
    simp only [ASTCache.set, if_pos hk]
    refine ⟨⟨hcap, hni, ?_, ?_, ?_⟩, by trivial⟩
    · simp only [List.map_cons, List.nodup_cons]
      constructor
      · intro hkin
        exact absurd ((mem_removeEntry_fst hno key).mp hkin).2 (by simp)
      · exact List.Nodup.sublist (List.Sublist.map Prod.fst (removeEntry_sublist key c.order)) hno
    · intro x
      simp only [List.map_cons, List.mem_cons, mem_removeEntry_fst hno x]
      constructor
      · intro hx
        by_cases hxk : x = key
        · exact Or.inl hxk
        · exact Or.inr ⟨(hmem x).mp hx, hxk⟩
      · rintro (hx | ⟨hx, _⟩)
        · exact hx ▸ hk
        · exact (hmem x).mpr hx
    · simp only [List.length_cons]
      rw [removeEntry_length hk']
      exact hlen
  · simp only [ASTCache.set, if_neg hk]
    by_cases hfull : c.capacity ≤ c.order.length
    · have hlen' : c.order.length = c.capacity := le_antisymm hlen hfull
      have hne : c.order ≠ [] := by
        intro he
        rw [he] at hlen'
        simp at hlen'
        omega
      have hgl : c.order.getLast? = some (c.order.getLast hne) := List.getLast?_eq_getLast _ hne
      have holdmem : (c.order.getLast hne).1 ∈ c.order.map Prod.fst :=
        List.mem_map_of_mem Prod.fst (List.getLast_mem hne)
      simp only [if_pos hfull, hgl]
      set old := c.order.getLast hne with hold
      have hkey_not_order : key ∉ c.order.map Prod.fst := fun hh => hk ((hmem key).mpr hh)
      have hdl : c.order.dropLast.map Prod.fst = (c.order.map Prod.fst).dropLast :=
        List.map_dropLast Prod.fst c.order
      have hdecomp : c.order.map Prod.fst =
          (c.order.map Prod.fst).dropLast ++ [old.1] := by
        have h1 : c.order = c.order.dropLast ++ [old] := by
          rw [hold]
          exact (List.dropLast_append_getLast hne).symm
        calc c.order.map Prod.fst
            = (c.order.dropLast ++ [old]).map Prod.fst := by rw [← h1]
          _ = c.order.dropLast.map Prod.fst ++ [old.1] := by simp
          _ = (c.order.map Prod.fst).dropLast ++ [old.1] := by rw [hdl]
      have hnodl : (c.order.map Prod.fst).dropLast.Nodup :=
        List.Nodup.sublist (List.dropLast_sublist _) hno
      have hold_not_dl : old.1 ∉ (c.order.map Prod.fst).dropLast := by
        intro hh
        have := hdecomp ▸ hno
        rw [List.nodup_append] at this
        exact this.2.2 hh (by simp)
      refine ⟨⟨hcap, ?_, ?_, ?_, ?_⟩, by trivial⟩
      · simp only [List.nodup_cons]
        constructor
        · intro hkin
          exact hk (((mem_eraseKey hni key).mp hkin).1)
        · exact List.Nodup.sublist (eraseKey_sublist old.1 c.items) hni
      · simp only [List.map_cons, List.nodup_cons, hdl]
        exact ⟨fun hh => hkey_not_order (List.mem_of_mem_dropLast (hdl ▸ hh)), hnodl⟩
      · intro x
        simp only [List.mem_cons, List.map_cons, mem_eraseKey hni x, hdl]
        constructor
        · rintro (hx | ⟨hx, hxo⟩)
          · exact Or.inl hx
          · right
            have hxord : x ∈ c.order.map Prod.fst := (hmem x).mp hx
            rw [hdecomp] at hxord
            rcases List.mem_append.mp hxord with hh | hh
            · exact hh
            · simp at hh
              exact absurd hh hxo
        · rintro (hx | hx)
          · exact Or.inl hx
          · right
            have hxord : x ∈ c.order.map Prod.fst := by
              rw [hdecomp]
              exact List.mem_append_left _ hx
            refine ⟨(hmem x).mpr hxord, fun hxo => hold_not_dl (hxo ▸ hx)⟩
      · simp only [List.length_cons, List.length_dropLast]
        omega
    · simp only [if_neg hfull]
      have hkey_not_order : key ∉ c.order.map Prod.fst := fun hh => hk ((hmem key).mpr hh)
      refine ⟨⟨hcap, ?_, ?_, ?_, ?_⟩, by trivial⟩
      · exact List.nodup_cons.mpr ⟨hk, hni⟩
      · simp only [List.map_cons, List.nodup_cons]
        exact ⟨hkey_not_order, hno⟩
      · intro x
        simp only [List.mem_cons, List.map_cons]
        constructor
        · rintro (hx | hx)
          · exact Or.inl hx
          · exact Or.inr ((hmem x).mp hx)
        · rintro (hx | hx)
          · exact Or.inl hx
          · exact Or.inr ((hmem x).mpr hx)
      · simp only [List.length_cons]
        omega

theorem clear_preserves_inv {c : ASTCache} (h : CacheInv c) :
    CacheInv c.clear ∧ c.clear.capacity = c.capacity :=
  ⟨⟨h.1, by simp [ASTCache.clear], by simp [ASTCache.clear], by simp [ASTCache.clear],
    by simp [ASTCache.clear]⟩, rfl⟩

theorem runCacheOps_preserves_inv (ops : List CacheOp) :
    ∀ c : ASTCache, CacheInv c →
      CacheInv (runCacheOps ops c) ∧ (runCacheOps ops c).capacity = c.capacity := by
  induction ops with
  | nil => exact fun c h => ⟨h, rfl⟩
  | cons op rest ih =>
    intro c h
    cases op with
    | get k =>
      obtain ⟨h1, h2⟩ := get_preserves_inv h k
      obtain ⟨h3, h4⟩ := ih _ h1
      exact ⟨h3, h2 ▸ h4⟩
    | set k p =>
      obtain ⟨h1, h2⟩ := set_preserves_inv h k p
      obtain ⟨h3, h4⟩ := ih _ h1
      exact ⟨h3, h2 ▸ h4⟩
    | clear =>
      obtain ⟨h1, h2⟩ := clear_preserves_inv h
      obtain ⟨h3, h4⟩ := ih _ h1
      exact ⟨h3, h2 ▸ h4⟩

/-! ## Claim C8: cache invariant and size bound -/

/-- C8: starting from a fresh cache of positive capacity C, after any
sequence of Get, Set and Clear operations, the invariant holds — every key
present in the map corresponds to exactly one entry in the recency list —
and Len never exceeds C. -/
theorem cache_size_invariant (C : Nat) (hC : 1 ≤ C) (ops : List CacheOp) :
    CacheInv (runCacheOps ops (newASTCache C)) ∧
    (runCacheOps ops (newASTCache C)).len ≤ C := by
  have hinit : CacheInv (newASTCache C) := by
    refine ⟨hC, by simp [newASTCache], by simp [newASTCache], by simp [newASTCache],
      by simp [newASTCache, ASTCache.len]⟩
  obtain ⟨hinv, hcap⟩ := runCacheOps_preserves_inv ops (newASTCache C) hinit
  refine ⟨hinv, ?_⟩
  have := hinv.2.2.2.2
  rw [ASTCache.len]
  calc (runCacheOps ops (newASTCache C)).order.length
      ≤ (runCacheOps ops (newASTCache C)).capacity := this
    _ = (newASTCache C).capacity := hcap
    _ = C := rfl

/-- Witness for C8: a short concrete operation sequence on a capacity-2
cache. -/
theorem cache_size_invariant_witness :
    CacheInv (runCacheOps
      [.set "a" 1, .set "b" 2, .get "a", .set "c" 3, .get "b", .clear, .set "d" 4]
      (newASTCache 2)) ∧
    (runCacheOps
      [.set "a" 1, .set "b" 2, .get "a", .set "c" 3, .get "b", .clear, .set "d" 4]
      (newASTCache 2)).len ≤ 2 :=
  cache_size_invariant 2 (by decide)
    [.set "a" 1, .set "b" 2, .get "a", .set "c" 3, .get "b", .clear, .set "d" 4]

/-! ## LRU insertion trace -/

theorem findEntry_key {key : String} :
    ∀ {l : List (String × CProg)} {e}, findEntry key l = some e → e.1 = key := by
  intro l
  induction l with
  | nil => intro e h; simp [findEntry] at h
  | cons hd tl ih =>
    intro e h
    by_cases hk : hd.1 = key
    · simp only [findEntry, if_pos hk] at h
      obtain rfl := Option.some.inj h
      exact hk
    · simp only [findEntry, if_neg hk] at h
      exact ih h

/-- Inserting fresh, mutually distinct keys while the cache stays within
capacity pushes them onto the front of both the map-key list and the
recency list, newest first. -/
theorem insertAll_fresh :
    ∀ (entries : List (String × CProg)) (c : ASTCache),
      (entries.map Prod.fst).Nodup →
      (∀ k ∈ entries.map Prod.fst, k ∉ c.items) →
      c.order.length + entries.length ≤ c.capacity →
      insertAll entries c =
        { capacity := c.capacity,
          items := (entries.map Prod.fst).reverse ++ c.items,
          order := entries.reverse ++ c.order } := by
  intro entries
  induction entries with
  | nil =>
    intro c _ _ _
    simp only [insertAll, List.foldl_nil, List.map_nil, List.reverse_nil,
      List.nil_append]
  | cons e rest ih =>
    intro c hnd hfresh hlen
    obtain ⟨k, p⟩ := e
    simp only [List.map_cons, List.nodup_cons] at hnd
    have hk : k ∉ c.items := hfresh k (by simp)
    have hnotfull : ¬ c.capacity ≤ c.order.length := by
      simp only [List.length_cons] at hlen
      omega
    have hset : c.set k p =
        { c with items := k :: c.items, order := (k, p) :: c.order } := by
      simp [ASTCache.set, hk, hnotfull]
    have hstep : insertAll ((k, p) :: rest) c = insertAll rest (c.set k p) := by
      simp [insertAll]
    set c1 : ASTCache :=
      { c with items := k :: c.items, order := (k, p) :: c.order } with hc1
    have h2 : ∀ k' ∈ rest.map Prod.fst, k' ∉ c1.items := by
      intro k' hk'
      rw [hc1]
      simp only [List.mem_cons]
      push_neg
      exact ⟨fun he => hnd.1 (he ▸ hk'), hfresh k' (by simp [hk'])⟩
    have h3 : c1.order.length + rest.length ≤ c1.capacity := by
      rw [hc1]
      simp only [List.length_cons] at hlen ⊢
      omega
    rw [hstep, hset, ih c1 hnd.2 h2 h3, hc1]
    simp

/-! ## Claim C7: LRU eviction and promotion -/

/-- C7: after inserting C+1 entries with distinct keys into a fresh
capacity-C cache, a Get of the first key misses and a Get of each later key
hits; a Get that finds an entry moves it to the front of the recency list;
and a Set on an existing key replaces its program and promotes the entry
without evicting anything (the map and the length are unchanged). -/
theorem lru_eviction_and_promotion (C : Nat) (hC : 1 ≤ C) (k0 : String) (p0 : CProg)
    (rest : List (String × CProg)) (hlen : rest.length = C)
    (hnd : (k0 :: rest.map Prod.fst).Nodup) :
    (((insertAll ((k0, p0) :: rest) (newASTCache C)).get k0).1 = none) ∧
    (∀ e ∈ rest, (((insertAll ((k0, p0) :: rest) (newASTCache C)).get e.1).1).isSome) ∧
    (∀ (c : ASTCache) (key : String) (p : CProg), (c.get key).1 = some p →
      ((c.get key).2).order.head? = some (key, p)) ∧
    (∀ (c : ASTCache) (key : String) (p : CProg), CacheInv c → key ∈ c.items →
      (c.set key p).order.head? = some (key, p) ∧
      (c.set key p).items = c.items ∧ (c.set key p).len = c.len) := by
  simp only [List.nodup_cons] at hnd
  obtain ⟨hk0, hrnd⟩ := hnd
  have hne : rest ≠ [] := by
    intro h
    rw [h] at hlen
    simp at hlen
    omega
  set last := rest.getLast hne with hlast
  have hsplit : rest = rest.dropLast ++ [last] :=
    (List.dropLast_append_getLast hne).symm
  have hkeysplit : rest.map Prod.fst = rest.dropLast.map Prod.fst ++ [last.1] := by
    calc rest.map Prod.fst = (rest.dropLast ++ [last]).map Prod.fst := by rw [← hsplit]
      _ = rest.dropLast.map Prod.fst ++ [last.1] := by simp
  have hdlnd : (rest.dropLast.map Prod.fst).Nodup := by
    have := hkeysplit ▸ hrnd
    exact (List.nodup_append.mp this).1
  have hlast_notdl : last.1 ∉ rest.dropLast.map Prod.fst := by
    have := hkeysplit ▸ hrnd
    intro hmem
    exact (List.nodup_append.mp this).2.2 hmem (by simp)
  have hk0_notdl : k0 ∉ rest.dropLast.map Prod.fst := by
    intro hmem
    exact hk0 (hkeysplit ▸ List.mem_append_left _ hmem)
  have hk0_ne_last : k0 ≠ last.1 := by
    intro h
    exact hk0 (hkeysplit ▸ List.mem_append_right _ (by simp [h]))
  -- state after the first insertion
  have hstep1 : insertAll ((k0, p0) :: rest) (newASTCache C) =
      insertAll rest ⟨C, [k0], [(k0, p0)]⟩ := by
    have : (newASTCache C).set k0 p0 = ⟨C, [k0], [(k0, p0)]⟩ := by
      simp [ASTCache.set, newASTCache]
    simp [insertAll, this]
  have hlen_dl : rest.dropLast.length = C - 1 := by
    rw [List.length_dropLast, hlen]
  -- state after the first C insertions
  have hstep2 : insertAll rest.dropLast (⟨C, [k0], [(k0, p0)]⟩ : ASTCache) =
      ⟨C, (rest.dropLast.map Prod.fst).reverse ++ [k0],
        rest.dropLast.reverse ++ [(k0, p0)]⟩ := by
    rw [insertAll_fresh rest.dropLast _ hdlnd ?_ ?_]
    · intro k' hk'
      simp only [List.mem_singleton]
      intro h
      exact hk0 (hkeysplit ▸ List.mem_append_left _ (h ▸ hk'))
    · simp [hlen_dl]
      omega
  -- the final insertion evicts (k0, p0)
  have hstep3 : insertAll ((k0, p0) :: rest) (newASTCache C) =
      ⟨C, last.1 :: (rest.dropLast.map Prod.fst).reverse,
        (last.1, last.2) :: rest.dropLast.reverse⟩ := by
    rw [hstep1]
    conv_lhs => rw [hsplit]
    rw [show insertAll (rest.dropLast ++ [last]) (⟨C, [k0], [(k0, p0)]⟩ : ASTCache) =
        (insertAll rest.dropLast ⟨C, [k0], [(k0, p0)]⟩).set last.1 last.2 from by
      simp [insertAll]]
    rw [hstep2]
    have hnotmem : last.1 ∉ (rest.dropLast.map Prod.fst).reverse ++ [k0] := by
      simp only [List.mem_append, List.mem_reverse, List.mem_singleton]
      push_neg
      exact ⟨hlast_notdl, fun h => hk0_ne_last h.symm⟩
    have hfull : C ≤ (rest.dropLast.reverse ++ [(k0, p0)]).length := by
      simp [hlen_dl]
      omega
    simp only [ASTCache.set, if_neg hnotmem, if_pos hfull, List.getLast?_concat,
      List.dropLast_concat]
    rw [eraseKey_append_right (by simpa using hk0_notdl) [k0]]
    simp [eraseKey]
  refine ⟨?_, ?_, ?_, ?_⟩
  · rw [hstep3]
    have hk0_notdl' : k0 ∉ (List.map Prod.fst rest).dropLast := by
      rw [← List.map_dropLast]
      exact hk0_notdl
    simp [ASTCache.get, hk0_ne_last, hk0_notdl, hk0_notdl']
  · intro e he
    rw [hstep3]
    have hmem : e.1 ∈ last.1 :: (rest.dropLast.map Prod.fst).reverse := by
      rw [hsplit] at he
      rcases List.mem_append.mp he with h | h
      · exact List.mem_cons_of_mem _ (by simpa using List.mem_map_of_mem Prod.fst h)
      · simp only [List.mem_singleton] at h
        simp [h]
    have hordmem : e.1 ∈ ((last.1, last.2) :: rest.dropLast.reverse).map Prod.fst := by
      simpa using hmem
    obtain ⟨en, hfe, _, _⟩ := findEntry_of_mem hordmem
    have hcond : e.1 = last.1 ∨ e.1 ∈ (List.map Prod.fst rest).dropLast := by
      rcases List.mem_cons.mp hmem with h | h
      · exact Or.inl h
      · right
        rw [← List.map_dropLast]
        simpa using h
    simp only [Prod.mk.eta] at hfe
    simp [ASTCache.get, hcond, hfe]
  · intro c key p h
    by_cases hk : key ∈ c.items
    · cases hfe : findEntry key c.order with
      | none => simp [ASTCache.get, hk, hfe] at h
      | some e =>
        have he1 : e.1 = key := findEntry_key hfe
        simp only [ASTCache.get, if_pos hk, hfe] at h ⊢
        simp only [Option.some.injEq] at h
        have : e = (key, p) := by
          obtain ⟨e1, e2⟩ := e
          simp only at he1
          simp only at h
          rw [he1, h]
        simp [this]
    · simp [ASTCache.get, hk] at h
  · intro c key p hinv hk
    have hk' : key ∈ c.order.map Prod.fst := (hinv.2.2.2.1 key).mp hk
    simp only [ASTCache.set, if_pos hk]
    refine ⟨by trivial, by trivial, ?_⟩
    simp only [ASTCache.len, List.length_cons]
    rw [removeEntry_length hk']

/-- Witness for C7: capacity 2, keys "a","b","c" inserted in order; the
theorem instantiates to: Get "a" misses, Get "b"/"c" hit, plus the
promotion and replace clauses. -/
theorem lru_eviction_and_promotion_witness :
    (((insertAll [("a", 1), ("b", 2), ("c", 3)] (newASTCache 2)).get "a").1 = none) ∧
    (∀ e ∈ [("b", 2), ("c", 3)],
      (((insertAll [("a", 1), ("b", 2), ("c", 3)] (newASTCache 2)).get e.1).1).isSome) ∧
    (∀ (c : ASTCache) (key : String) (p : CProg), (c.get key).1 = some p →
      ((c.get key).2).order.head? = some (key, p)) ∧
    (∀ (c : ASTCache) (key : String) (p : CProg), CacheInv c → key ∈ c.items →
      (c.set key p).order.head? = some (key, p) ∧
      (c.set key p).items = c.items ∧ (c.set key p).len = c.len) :=
  lru_eviction_and_promotion 2 (by decide) "a" 1 [("b", 2), ("c", 3)]
    (by decide) (by decide)

/-! ## Lexer lemmas -/

theorem readChar_prevToken (l : Lex) : (Lex.readChar l).prevToken = l.prevToken := rfl

theorem skipWS_prevToken : ∀ (f : Nat) (l : Lex), (skipWS f l).prevToken = l.prevToken := by
  intro f
  induction f with
  | zero => intro l; rfl
  | succ f ih =>
    intro l
    simp only [skipWS]
    split
    · exact (ih l.readChar).trans rfl
    · rfl

theorem skipLineComment_prevToken :
    ∀ (f : Nat) (l : Lex), (skipLineComment f l).prevToken = l.prevToken := by
  intro f
  induction f with
  | zero => intro l; rfl
  | succ f ih =>
    intro l
    simp only [skipLineComment]
    split
    · exact (ih l.readChar).trans rfl
    · rfl

theorem skipWS_eq_of_newline (f : Nat) (l : Lex) (h : l.ch = '\n') :
    skipWS f l = l := by
  cases f with
  | zero => rfl
  | succ f =>
    simp only [skipWS]
    rw [if_neg (by rw [h]; decide)]

theorem lookupIdent_ne_newline (s : String) : lookupIdent s ≠ .NEWLINE := by
  unfold lookupIdent
  repeat' split
  all_goals decide

theorem lookupIdent_ne_template (s : String) : lookupIdent s ≠ .STRING_TEMPLATE := by
  unfold lookupIdent
  repeat' split
  all_goals decide

theorem canEnd_eq_spec_of_ne (t : TokType) (h : t ≠ .STRING_TEMPLATE) :
    t.canEndStatement = specASIPredicate t := by
  cases t <;> first | rfl | exact absurd rfl h

theorem spec_imp_canEnd (t : TokType) (h : specASIPredicate t = true) :
    t.canEndStatement = true := by
  cases t <;> revert h <;> decide

/-- A token emitted after a previous token that cannot end a statement is
never a NEWLINE token (swallowed line breaks do not resurface). -/
theorem nextToken_no_newline : ∀ (fuel : Nat) (l : Lex),
    l.prevToken.ttype.canEndStatement = false →
    (nextToken fuel l).1.ttype ≠ .NEWLINE := by
  intro fuel
  induction fuel with
  | zero =>
    intro l h hEq
    simp [nextToken] at hEq
  | succ fuel ih =>
    intro l h hEq
    simp only [nextToken] at hEq
    repeat' split at hEq
    all_goals first
      | (simp [finishTok, mkTok, lookupIdent_ne_newline] at hEq; done)
      | exact absurd hEq (ih _ (by
          simp only [skipLineComment_prevToken, skipWS_prevToken]
          exact h))
      | exact absurd hEq (ih _ (by
          simp only [readChar_prevToken, skipWS_prevToken]
          exact h))
      | simp_all [skipWS_prevToken]

/-- The lexer never emits a STRING_TEMPLATE token (the type exists in the
token model only). -/
theorem nextToken_no_template : ∀ (fuel : Nat) (l : Lex),
    (nextToken fuel l).1.ttype ≠ .STRING_TEMPLATE := by
  intro fuel
  induction fuel with
  | zero =>
    intro l hEq
    simp [nextToken] at hEq
  | succ fuel ih =>
    intro l hEq
    simp only [nextToken] at hEq
    repeat' split at hEq
    all_goals first
      | (simp [finishTok, mkTok, lookupIdent_ne_template] at hEq; done)
      | exact absurd hEq (ih _)

/-! ## Claim C9: ASI newline emission -/

/-- C9: at a raw line break in scanning position, the lexer emits a NEWLINE
token if and only if the previously emitted token's kind lies in the
spec's ASI set (identifier, number, string, true, false, null, close-paren,
close-brace, close-bracket); otherwise the break is swallowed and scanning
continues.  The code's predicate additionally admits STRING_TEMPLATE, but
no emitted token ever has that kind (nor does the initial ILLEGAL
`prevToken`), so the hypothesis excluding it covers every reachable lexer
state, and away from it the code predicate coincides with the spec's set. -/
theorem asi_newline_iff (fuel : Nat) (l : Lex) (hch : l.ch = '\n')
    (hreach : l.prevToken.ttype ≠ .STRING_TEMPLATE) :
    ((nextToken (fuel + 1) l).1.ttype = .NEWLINE ↔
      specASIPredicate l.prevToken.ttype = true) ∧
    (∀ t : TokType, t ≠ .STRING_TEMPLATE → t.canEndStatement = specASIPredicate t) ∧
    (∀ (f : Nat) (l' : Lex), (nextToken f l').1.ttype ≠ .STRING_TEMPLATE) ∧
    (∀ input : List Char, (newLexer input).prevToken.ttype ≠ .STRING_TEMPLATE) := by
  refine ⟨?_, canEnd_eq_spec_of_ne, nextToken_no_template,
    fun input => by simp [newLexer, Lex.readChar]⟩
  have hws : skipWS (loopFuel l) l = l := skipWS_eq_of_newline _ _ hch
  by_cases hs : specASIPredicate l.prevToken.ttype = true
  · have hcan : l.prevToken.ttype.canEndStatement = true := spec_imp_canEnd _ hs
    simp [nextToken, hws, hch, hcan, finishTok, hs]
  · have hs' : specASIPredicate l.prevToken.ttype = false := by
      cases hb : specASIPredicate l.prevToken.ttype
      · rfl
      · exact absurd hb hs
    have hcan : l.prevToken.ttype.canEndStatement = false :=
      (canEnd_eq_spec_of_ne _ hreach).trans hs'
    have hnn : (nextToken (fuel + 1) l).1.ttype ≠ .NEWLINE := by
      intro hEq
      simp only [nextToken, hws, hch, hcan] at hEq
      exact absurd hEq (nextToken_no_newline fuel _ (by
        simp only [readChar_prevToken]
        exact hcan))
    rw [hs']
    simp only [Bool.false_eq_true, iff_false]
    exact hnn

/-- Witness for C9: after an identifier token (`x`), the line break is
promoted to a NEWLINE token; the instantiated biconditional plus the
predicate-agreement, no-STRING_TEMPLATE-emission, and initial-state
clauses. -/
theorem asi_newline_iff_witness :
    ((nextToken 1 ⟨['x', '\n'], 1, 2, '\n', 1, 2, ⟨.IDENT, "x", 1, 1⟩⟩).1.ttype =
        .NEWLINE ↔
      specASIPredicate (Tok.mk .IDENT "x" 1 1).ttype = true) ∧
    (∀ t : TokType, t ≠ .STRING_TEMPLATE → t.canEndStatement = specASIPredicate t) ∧
    (∀ (f : Nat) (l' : Lex), (nextToken f l').1.ttype ≠ .STRING_TEMPLATE) ∧
    (∀ input : List Char, (newLexer input).prevToken.ttype ≠ .STRING_TEMPLATE) :=
  asi_newline_iff 0 ⟨['x', '\n'], 1, 2, '\n', 1, 2, ⟨.IDENT, "x", 1, 1⟩⟩ rfl
    (by decide)

end KodiSpec
